import Mathlib

/-
Verification development for the database-manager storage engine.

Shallow embedding of:
  - the page-file layer        (src/record_manager/storage_mgr.c)
  - the buffer pool            (src/buffer_manager/buffer_mgr.c)
  - the record manager / heap  (src/assign3/record_mgr.c)

Pages are modelled as byte maps (Nat -> Nat); the page file is a list of
logical pages (the textual header block of storage_mgr.c is bookkeeping
below the logical page numbering and is not observable through the API
surface modelled here).  C `int` values that can go negative (numTuples)
are modelled as Int; 32-bit stores/loads use explicit `% 2^32`.
-/

set_option maxRecDepth 8000

namespace DB

/-- PAGE_SIZE, as in dberror.h / storage_mgr.h (4096). -/
def PAGE_SIZE : Nat := 4096

/-- A page (or any byte buffer): a map from byte offset to byte value. -/
def Page : Type := Nat → Nat

/-- A fresh zero-filled page (calloc). -/
def zeroPage : Page := fun _ => 0

/-- memcpy semantics: overwrite bytes [off, off + bs.length) of `p` with `bs`. -/
def writeBytes (p : Page) (off : Nat) (bs : List Nat) : Page :=
  fun x => if off ≤ x ∧ x < off + bs.length then bs.getD (x - off) 0 else p x

/-- Read `len` bytes starting at `off`. -/
def readBytes (p : Page) (off len : Nat) : List Nat :=
  (List.range len).map (fun j => p (off + j))

/-- Little-endian bytes of a 32-bit unsigned value (low byte first). -/
def natToLE4 (u : Nat) : List Nat :=
  [u % 256, u / 256 % 256, u / 65536 % 256, u / 16777216 % 256]

/-- Recompose a 32-bit unsigned value from 4 little-endian bytes. -/
def leToNat4 (bs : List Nat) : Nat :=
  bs.getD 0 0 + 256 * bs.getD 1 0 + 65536 * bs.getD 2 0 + 16777216 * bs.getD 3 0

/-- The byte image of a C `int` store (`*(int *) p = n`): two's complement,
little-endian, 4 bytes. -/
def le32 (n : Int) : List Nat :=
  natToLE4 ((n % 4294967296).toNat)

/-- A C `int` load (`*(int *) p`): 4 little-endian bytes, signed. -/
def leToInt32 (bs : List Nat) : Int :=
  if leToNat4 bs < 2147483648 then (leToNat4 bs : Int) else (leToNat4 bs : Int) - 4294967296

/-- strncpy(dst, src, n) byte effect: copy `src` up to its first NUL and at
most `n` bytes, zero-filling the remainder of the `n`-byte window. -/
def strncpyBytes (n : Nat) (src : List Nat) : List Nat :=
  let pre := (src.takeWhile (fun b => b != 0)).take n
  pre ++ List.replicate (n - pre.length) 0

/-- Return codes (dberror.h kinds used by the modelled functions). -/
inductive RC where
  | ok
  | invalidParam
  | memAllocError
  | fileNotFound
  | fileHandleNotInit
  | readNonExistingPage
  | writeNonExistingPage
  | readFailed
  | writeFailed
  | pageNotFound
  | pinnedPages
  | tupleNotFound
  | noMoreTuples
  deriving DecidableEq

/- ===================== page file (storage_mgr.c) ===================== -/

/-- The open page file: its logical pages.  `totalNumPages` is the length. -/
structure SMFile where
  pages : List Page

/-- Read of logical page `n` with the bounds check of readBlock
(`pageNum < totalNumPages`); returns the page on success. -/
def readBlockF (f : SMFile) (n : Nat) : Option Page :=
  if n < f.pages.length then some (f.pages.getD n zeroPage) else none

/-- writeBlock: overwrite page `n`; when `n == totalNumPages` an empty block
is appended first (so the write lands on the new last page); `n` beyond that
is rejected (RC_WRITE_NON_EXISTING_PAGE, modelled as `none`). -/
def writeBlockF (f : SMFile) (n : Nat) (d : Page) : Option SMFile :=
  if n < f.pages.length then some ⟨f.pages.set n d⟩
  else if n = f.pages.length then some ⟨f.pages ++ [d]⟩
  else none

/-- ensureCapacity: append zero-filled blocks until totalNumPages ≥ m. -/
def ensureCapacityF (f : SMFile) (m : Nat) : SMFile :=
  ⟨f.pages ++ List.replicate (m - f.pages.length) zeroPage⟩

/-- On-disk bytes of logical page `n` (zero page when absent; only used at
in-range page numbers in the theorems). -/
def fileRead (f : SMFile) (n : Nat) : Page :=
  f.pages.getD n zeroPage

/- ===================== buffer pool (buffer_mgr.c) ===================== -/

/-- One buffer frame: the i-th entries of the parallel arrays
pageFrames / fixCounts / dirtyFlags / lastUsed of BP_MgmtData.
`content = none` is a NULL pageFrames[i]; otherwise it carries
(pageNum, data buffer). -/
structure Frame where
  content : Option (Nat × Page)
  fixCount : Nat
  dirty : Bool
  lastUsed : Nat

def defaultFrame : Frame := ⟨none, 0, false, 0⟩

/-- Frame at index i (indexing of the C arrays). -/
def frameAt (l : List Frame) (i : Nat) : Frame :=
  l.getD i defaultFrame

/-- The buffer pool together with its open page file (BP_MgmtData).
readIOCount / writeIOCount are the readIO / writeIO counters. -/
structure Pool where
  frames : List Frame
  lruClock : Nat
  readIOCount : Nat
  writeIOCount : Nat
  file : SMFile

/-- INT_MAX, the sentinel `oldestTime` starts from in getFrameToReplace. -/
def INT_MAX : Nat := 2147483647

/-- findPageInPool: index of the first frame whose loaded page number equals
`pn` (the C forward scan over pageFrames). -/
def findPageInPool : List Frame → Nat → Option Nat
  | [], _ => none
  | fr :: rest, pn =>
    match fr.content with
    | some (q, _) => if q = pn then some 0 else (findPageInPool rest pn).map (· + 1)
    | none => (findPageInPool rest pn).map (· + 1)

/-- Step 1 of getFrameToReplace: index of the first NULL (empty) frame. -/
def findEmptyIdx : List Frame → Option Nat
  | [] => none
  | fr :: rest =>
    if fr.content.isNone then some 0 else (findEmptyIdx rest).map (· + 1)

/-- Step 2 of getFrameToReplace: the forward scan keeping the first index
whose `lastUsed` is strictly below the best seen so far, starting from the
sentinel INT_MAX; i.e. the first index attaining the minimal lastUsed among
frames with fixCount == 0.  A frame stamped ≥ INT_MAX can never beat the
sentinel (strict `<`), hence the eligibility condition below.  Returns the
victim index together with its lastUsed stamp. -/
def selectVictimIdx : List Frame → Option (Nat × Nat)
  | [] => none
  | fr :: rest =>
    let r := (selectVictimIdx rest).map (fun q => (q.1 + 1, q.2))
    if fr.fixCount = 0 ∧ fr.lastUsed < INT_MAX then
      match r with
      | some (j, t) => if t < fr.lastUsed then some (j, t) else some (0, fr.lastUsed)
      | none => some (0, fr.lastUsed)
    else r

/-- getFrameToReplace: empty frame first; otherwise the LRU victim among
unpinned frames; if the victim is dirty its page is written out
(writeBlock's return code is ignored by the C code), writeIO incremented
and the dirty flag cleared, before the index is returned. -/
def getFrameToReplace (p : Pool) : Option Nat × Pool :=
  match findEmptyIdx p.frames with
  | some i => (some i, p)
  | none =>
    match selectVictimIdx p.frames with
    | none => (none, p)
    | some (v, _) =>
      let fr := frameAt p.frames v
      if fr.dirty then
        match fr.content with
        | some (vpn, d) =>
          let f' := (writeBlockF p.file vpn d).getD p.file
          (some v, { p with file := f',
                            writeIOCount := p.writeIOCount + 1,
                            frames := p.frames.set v { fr with dirty := false } })
        | none => (some v, p)   -- dead: step 1 found no empty frame
      else (some v, p)

/-- pinPage.  Returns (rc, pool, handle); the handle carries
(pageNum, data) as BM_PageHandle does. -/
def pinPage (p : Pool) (pageNum : Nat) : RC × Pool × Option (Nat × Page) :=
  match findPageInPool p.frames pageNum with
  | some i =>
    let fr := frameAt p.frames i
    let frames' := p.frames.set i { fr with fixCount := fr.fixCount + 1, lastUsed := p.lruClock }
    (RC.ok, { p with frames := frames', lruClock := p.lruClock + 1 },
      some (pageNum, match fr.content with | some (_, d) => d | none => zeroPage))
  | none =>
    let gr := getFrameToReplace p
    match gr.1 with
    | none => (RC.pageNotFound, gr.2, none)
    | some v =>
      let p1 := gr.2
      let rd : Option (Page × SMFile) :=
        match readBlockF p1.file pageNum with
        | some d => some (d, p1.file)
        | none =>
          -- RC_READ_NON_EXISTING_PAGE: grow the file, then read again
          let f2 := ensureCapacityF p1.file (pageNum + 1)
          match readBlockF f2 pageNum with
          | some d => some (d, f2)
          | none => none
      match rd with
      | none => (RC.readFailed, p1, none)   -- dead: second read is in range
      | some (d, f') =>
        let frames' := p1.frames.set v
          { content := some (pageNum, d), fixCount := 1, dirty := false, lastUsed := p1.lruClock }
        (RC.ok, { p1 with frames := frames', file := f',
                          readIOCount := p1.readIOCount + 1, lruClock := p1.lruClock + 1 },
          some (pageNum, d))

/-- unpinPage: find the frame holding `pageNum`; decrement its fixCount only
when it is positive. -/
def unpinPage (p : Pool) (pageNum : Nat) : RC × Pool :=
  match findPageInPool p.frames pageNum with
  | none => (RC.pageNotFound, p)
  | some i =>
    let fr := frameAt p.frames i
    if 0 < fr.fixCount then
      (RC.ok, { p with frames := p.frames.set i { fr with fixCount := fr.fixCount - 1 } })
    else (RC.ok, p)

/-- The loop body of forceFlushPool over the frame array: write out every
loaded, dirty, unpinned frame (early return on a write failure, as in C).
Returns (rc, frames, file, writeIOCount). -/
def forceFlushGo : List Frame → SMFile → Nat → RC × List Frame × SMFile × Nat
  | [], f, w => (RC.ok, [], f, w)
  | fr :: rest, f, w =>
    match fr.content with
    | some (pn, d) =>
      if fr.dirty ∧ fr.fixCount = 0 then
        match writeBlockF f pn d with
        | some f1 =>
          let r := forceFlushGo rest f1 (w + 1)
          (r.1, { fr with dirty := false } :: r.2.1, r.2.2.1, r.2.2.2)
        | none => (RC.writeNonExistingPage, fr :: rest, f, w)
      else
        let r := forceFlushGo rest f w
        (r.1, fr :: r.2.1, r.2.2.1, r.2.2.2)
    | none =>
      let r := forceFlushGo rest f w
      (r.1, fr :: r.2.1, r.2.2.1, r.2.2.2)

/-- forceFlushPool on an open pool. -/
def forceFlushPool (p : Pool) : RC × Pool :=
  let r := forceFlushGo p.frames p.file p.writeIOCount
  (r.1, { p with frames := r.2.1, file := r.2.2.1, writeIOCount := r.2.2.2 })

/-- shutdownBufferPool.  `none` models a BM_BufferPool whose mgmtData is
NULL (never initialised, or already shut down).  The third component is the
on-disk file at the moment closePageFile is called (`some` exactly on the
successful path). -/
def shutdownBufferPool (bm : Option Pool) : RC × Option Pool × Option SMFile :=
  match bm with
  | none => (RC.invalidParam, none, none)
  | some p =>
    if p.frames.any (fun fr => fr.fixCount != 0) then (RC.pinnedPages, some p, none)
    else
      let r := forceFlushPool p
      if r.1 = RC.ok then (RC.ok, none, some r.2.file)
      else (r.1, some r.2, none)

/-- Page content held in the `some` file of a shutdown result. -/
def finalPageAt (r : RC × Option Pool × Option SMFile) (pn : Nat) : Option Page :=
  match r.2.2 with
  | some f => if pn < f.pages.length then some (fileRead f pn) else none
  | none => none

/-- Page numbers loaded in the occupied frames, in frame order. -/
def occupiedPages (l : List Frame) : List Nat :=
  l.filterMap (fun fr => fr.content.map (fun c => c.1))

/- ============== schema and table metadata (record_mgr.c) ============== -/

/-- The in-memory Schema of tables.h: attribute names are NUL-free byte
strings, dataTypes are the serialised enum ints
(0 = DT_INT, 1 = DT_STRING, 2 = DT_FLOAT, 3 = DT_BOOL). -/
structure CSchema where
  numAttr : Nat
  attrNames : List (List Nat)
  dataTypes : List Int
  typeLength : List Int
  keySize : Nat
  keyAttrs : List Int
  deriving DecidableEq

/-- Per-type width, as the switches in getRecordSize /
determineAttributeOffsetInRecord compute it (INT 4, STRING typeLength,
FLOAT 4, BOOL 1; anything else contributes 0). -/
def attrSize (dt tl : Int) : Nat :=
  if dt = 0 then 4
  else if dt = 1 then tl.toNat
  else if dt = 2 then 4
  else if dt = 3 then 1
  else 0

/-- getRecordSize: sum of the attribute widths. -/
def getRecordSize (sch : CSchema) : Nat :=
  ((List.range sch.numAttr).map
    (fun i => attrSize (sch.dataTypes.getD i 0) (sch.typeLength.getD i 0))).sum

/-- determineAttributeOffsetInRecord: widths of the preceding attributes. -/
def attrOffset (sch : CSchema) (attrNum : Nat) : Nat :=
  ((List.range attrNum).map
    (fun i => attrSize (sch.dataTypes.getD i 0) (sch.typeLength.getD i 0))).sum

/-- The page-1 metadata block written by createTable: numTuples = 0,
firstFreePage = 2, recordSize, numAttr, then per attribute a 20-byte
strncpy'd name, dataType and typeLength; then the key attribute indices
(createTable writes NO keySize field before them); the rest of the page is
the memset-0 fill. -/
def createTableMetaPage (sch : CSchema) : List Nat :=
  let body :=
    le32 0 ++ le32 2 ++ le32 (getRecordSize sch) ++ le32 sch.numAttr
    ++ ((List.range sch.numAttr).map (fun i =>
          strncpyBytes 20 (sch.attrNames.getD i [])
          ++ le32 (sch.dataTypes.getD i 0)
          ++ le32 (sch.typeLength.getD i 0))).flatten
    ++ ((List.range sch.keySize).map (fun j => le32 (sch.keyAttrs.getD j 0))).flatten
  body ++ List.replicate (PAGE_SIZE - body.length) 0

/-- `*(int *)` load at byte offset `off` of a metadata block. -/
def readInt32At (bs : List Nat) (off : Nat) : Int :=
  leToInt32 [bs.getD off 0, bs.getD (off + 1) 0, bs.getD (off + 2) 0, bs.getD (off + 3) 0]

/-- The attribute-reading loop of openTable: from offset `off`, read `n`
blocks of 20-byte name (strncpy'd into a 21-byte buffer, i.e. the name is
the bytes before the first NUL), dataType, typeLength.  Returns the three
lists and the offset after the last attribute. -/
def readAttrsGo (bs : List Nat) : Nat → Nat → List (List Nat) × List Int × List Int × Nat
  | off, 0 => ([], [], [], off)
  | off, n + 1 =>
    let name := ((readBytes (fun x => bs.getD x 0) off 20).takeWhile (fun b => b != 0))
    let dt := readInt32At bs (off + 20)
    let tl := readInt32At bs (off + 24)
    let r := readAttrsGo bs (off + 28) n
    (name :: r.1, dt :: r.2.1, tl :: r.2.2.1, r.2.2.2)

/-- The key-attribute-reading loop of openTable. -/
def readKeysGo (bs : List Nat) : Nat → Nat → List Int
  | _, 0 => []
  | off, n + 1 => readInt32At bs off :: readKeysGo bs (off + 4) n

/-- The schema openTable decodes from a page-1 metadata block: it skips the
three table counters, reads numAttr, the attributes, then a keySize field
and that many key attribute indices. -/
def openTableSchema (bs : List Nat) : CSchema :=
  let numAttr := (readInt32At bs 12).toNat
  let r := readAttrsGo bs 16 numAttr
  let keySize := (readInt32At bs r.2.2.2).toNat
  ⟨numAttr, r.1, r.2.1, r.2.2.1, keySize, readKeysGo bs (r.2.2.2 + 4) keySize⟩

/- ================= heap operations (record_mgr.c) ================= -/

/-- The table-level state the heap operations act on: the counters of
RMTableMgmtData plus the table's pages as seen through its buffer pool
(every heap operation pins a page, mutates it, marks it dirty and unpins
it before the next operation, so the pool presents a read-your-writes view
of the page file; pinning a page at or beyond the end of `file`
materialises zero-filled pages up to it, as pinPage's ensureCapacity
path does). -/
structure RMTable where
  numTuples : Int
  firstFreePageNumber : Nat
  recordSize : Nat
  file : List Page

/-- Logical page `p` of the table (zero page beyond the end, matching the
ensureCapacity behaviour of pinning past the end). -/
def readPage (file : List Page) (p : Nat) : Page :=
  file.getD p zeroPage

/-- Materialise zero-filled pages so that at least `n` pages exist. -/
def extendTo (file : List Page) (n : Nat) : List Page :=
  file ++ List.replicate (n - file.length) zeroPage

/-- totalSlots = floor(PAGE_SIZE / (recordSize + 1)). -/
def totalSlotsOf (recordSize : Nat) : Nat :=
  PAGE_SIZE / (recordSize + 1)

/-- The slot-searching for-loop of insertRecord on one page: first slot
index `i < n` (counting from `i`) whose marker byte `data[i * rs1]` is not
'#' (35). -/
def firstFreeSlotGo (pg : Page) (rs1 : Nat) : Nat → Nat → Option Nat
  | 0, _ => none
  | n + 1, i => if pg (i * rs1) != 35 then some i else firstFreeSlotGo pg rs1 n (i + 1)

/-- First free (non-'#') slot of a page among slots 0..totalSlots-1. -/
def firstFreeSlotInPage (pg : Page) (rs1 totalSlots : Nat) : Option Nat :=
  firstFreeSlotGo pg rs1 totalSlots 0

/-- The page-advancing while-loop of insertRecord: starting at `page`, find
the first (page, slot) whose marker is not '#'.  The loop always terminates
because pinning past the end of the file yields a zero page whose slot 0 is
free; `fuel` is the loop bound `file.length + 1 - page` (generously
`file.length + 1`), and the fuel-0 branch returns the (page, 0) that the
zero-page iteration would produce. -/
def findFreeSlotFrom (file : List Page) (rs1 totalSlots : Nat) : Nat → Nat → Nat × Nat
  | 0, page => (page, 0)
  | fuel + 1, page =>
    match firstFreeSlotInPage (readPage file page) rs1 totalSlots with
    | some s => (page, s)
    | none => findFreeSlotFrom file rs1 totalSlots fuel (page + 1)

/-- insertRecord: search from firstFreePageNumber for a non-'#' slot, write
the '#' marker and the record payload there, bump numTuples; the
first-free-page hint is updated only when the slot was found on a later
page.  Returns the new state and the assigned RID. -/
def insertRecord (st : RMTable) (recData : List Nat) : RMTable × Nat × Nat :=
  let rs1 := st.recordSize + 1
  let totalSlots := totalSlotsOf st.recordSize
  let start := st.firstFreePageNumber
  let ps := findFreeSlotFrom st.file rs1 totalSlots (st.file.length + 1) start
  let pg := ps.1
  let sl := ps.2
  let ffp' := if pg = start then st.firstFreePageNumber else pg
  let file1 := extendTo st.file (pg + 1)
  let newPg := writeBytes (readPage file1 pg) (sl * rs1) (35 :: recData.take st.recordSize)
  (⟨st.numTuples + 1, ffp', st.recordSize, file1.set pg newPg⟩, pg, sl)

/-- deleteRecord: pin the RID's page (materialising it if needed), write the
'$' (36) tombstone marker, decrement numTuples.  No check of the previous
marker is performed; the function always returns RC_OK. -/
def deleteRecord (st : RMTable) (rid : Nat × Nat) : RMTable × RC :=
  let rs1 := st.recordSize + 1
  let file1 := extendTo st.file (rid.1 + 1)
  let newPg := writeBytes (readPage file1 rid.1) (rid.2 * rs1) [36]
  (⟨st.numTuples - 1, st.firstFreePageNumber, st.recordSize, file1.set rid.1 newPg⟩, RC.ok)

/- ===================== scan engine (record_mgr.c) ===================== -/

/-- RMScanMgmtData: current rid and the count of slots visited so far. -/
structure ScanState where
  page : Nat
  slot : Nat
  count : Nat
  deriving DecidableEq

/-- Cursor advance at the top of the scan loop: on the first call (count
== 0) restart at (2,0); otherwise move to the next slot, wrapping to the
next page after totalSlots slots. -/
def scanStep (totalSlots : Nat) (sc : ScanState) : Nat × Nat :=
  if sc.count = 0 then (2, 0)
  else if sc.slot + 1 ≥ totalSlots then (sc.page + 1, 0)
  else (sc.page, sc.slot + 1)

/-- The while-loop of next(): as long as count ≤ numTuples, advance, copy
the slot's payload bytes (the marker byte is skipped but never tested),
count it, and evaluate the condition (`none` = no condition = always
true); emit on success.  `fuel` is the loop variant
numTuples + 1 - count ≤ numTuples + 1; the fuel-0 branch coincides with
the loop-exit return. -/
def scanLoop (st : RMTable) (cond : Option (List Nat → Bool)) :
    Nat → ScanState → RC × ScanState × Option ((Nat × Nat) × List Nat)
  | 0, _ => (RC.noMoreTuples, ⟨2, 0, 0⟩, none)
  | fuel + 1, sc =>
    if (sc.count : Int) ≤ st.numTuples then
      let ps := scanStep (totalSlotsOf st.recordSize) sc
      let payload := readBytes (readPage st.file ps.1) (ps.2 * (st.recordSize + 1) + 1) st.recordSize
      let sc' : ScanState := ⟨ps.1, ps.2, sc.count + 1⟩
      let hit := match cond with | none => true | some f => f payload
      if hit then (RC.ok, sc', some ((ps.1, ps.2), payload))
      else scanLoop st cond fuel sc'
    else (RC.noMoreTuples, ⟨2, 0, 0⟩, none)

/-- next(): empty-table early return, then the scan loop. -/
def RMNext (st : RMTable) (cond : Option (List Nat → Bool)) (sc : ScanState) :
    RC × ScanState × Option ((Nat × Nat) × List Nat) :=
  if st.numTuples = 0 then (RC.noMoreTuples, sc, none)
  else scanLoop st cond (st.numTuples + 1).toNat sc

/- ================== live-slot counting (for C5) ================== -/

/-- Number of slots of one data page whose marker byte is '#'. -/
def livePage (pg : Page) (rs1 totalSlots : Nat) : Nat :=
  (List.range totalSlots).countP (fun s => pg (s * rs1) == 35)

/-- Number of live ('#') slots over all data pages (pages ≥ 2). -/
def liveIn (file : List Page) (rs1 totalSlots : Nat) : Nat :=
  ((List.range file.length).map
    (fun p => if 2 ≤ p then livePage (readPage file p) rs1 totalSlots else 0)).sum

/-- Live-slot count of a table state. -/
def liveCount (st : RMTable) : Nat :=
  liveIn st.file (st.recordSize + 1) (totalSlotsOf st.recordSize)

/-- A heap operation (the C5 claim quantifies over sequences of these). -/
inductive HeapOp where
  | ins (recData : List Nat)
  | del (rid : Nat × Nat)

/-- Apply one heap operation. -/
def applyOp (st : RMTable) : HeapOp → RMTable
  | .ins r => (insertRecord st r).1
  | .del rid => (deleteRecord st rid).1

/-- Apply a sequence of heap operations. -/
def applyOps (st : RMTable) : List HeapOp → RMTable
  | [] => st
  | op :: rest => applyOps (applyOp st op) rest

/-- A delete is well-aimed when it targets a data-page slot that is live at
the time of deletion (insertions are always well-aimed). -/
def validOp (st : RMTable) : HeapOp → Bool
  | .ins _ => true
  | .del rid =>
    decide (2 ≤ rid.1) && decide (rid.2 < totalSlotsOf st.recordSize)
      && (readPage st.file rid.1 (rid.2 * (st.recordSize + 1)) == 35)

/-- All deletes in the sequence are well-aimed in the state they run in. -/
def validOps (st : RMTable) : List HeapOp → Bool
  | [] => true
  | op :: rest => validOp st op && validOps (applyOp st op) rest

/- =============== attribute codec (getAttr / setAttr) =============== -/

/-- The Value union of tables.h, restricted to the payload each dataType
uses: ints are C ints, strings NUL-free byte strings, floats their 4-byte
bit pattern (setAttr/getAttr only ever memcpy them), bools their byte. -/
inductive CValue where
  | intV (n : Int)
  | stringV (s : List Nat)
  | floatV (bits : Nat)
  | boolV (b : Nat)
  deriving DecidableEq

/-- setAttr: write the value's bytes at the attribute's offset.  For
STRING(n) the C code strncpy's the value into a fresh (n+1)-buffer and
strncpy's that buffer into the record.  A value whose union member does
not match the declared type reinterprets uninitialised union bytes in C
and is outside the modelled (well-typed) domain; the record is returned
unchanged in that dead branch. -/
def setAttr (rec : Page) (sch : CSchema) (attrNum : Nat) (v : CValue) : Page :=
  let off := attrOffset sch attrNum
  let dt := sch.dataTypes.getD attrNum 0
  if dt = 0 then
    match v with
    | .intV n => writeBytes rec off (le32 n)
    | _ => rec
  else if dt = 1 then
    match v with
    | .stringV s =>
      let len := (sch.typeLength.getD attrNum 0).toNat
      let buf := strncpyBytes len s
      writeBytes rec off (strncpyBytes len buf)
    | _ => rec
  else if dt = 2 then
    match v with
    | .floatV bits => writeBytes rec off (natToLE4 (bits % 4294967296))
    | _ => rec
  else if dt = 3 then
    match v with
    | .boolV b => writeBytes rec off [b]
    | _ => rec
  else rec

/-- getAttr: read the attribute's bytes at its offset and build the Value.
The STRING case strncpy's `len` bytes into a NUL-terminated buffer, so the
resulting C string is the bytes before the first NUL. -/
def getAttr (rec : Page) (sch : CSchema) (attrNum : Nat) : CValue :=
  let off := attrOffset sch attrNum
  let dt := sch.dataTypes.getD attrNum 0
  if dt = 0 then .intV (leToInt32 (readBytes rec off 4))
  else if dt = 1 then
    let len := (sch.typeLength.getD attrNum 0).toNat
    .stringV ((readBytes rec off len).takeWhile (fun b => b != 0))
  else if dt = 2 then .floatV (leToNat4 (readBytes rec off 4))
  else if dt = 3 then .boolV (rec off)
  else .intV 0   -- dead for well-typed schemas (C leaves the Value uninitialised)

/-- A value matching its attribute's declared type and C representation
(int32 range, NUL-free C string, 32-bit float pattern, 0/1 bool byte). -/
def wellTypedValue (sch : CSchema) (attrNum : Nat) : CValue → Prop
  | .intV n => sch.dataTypes.getD attrNum 0 = 0 ∧ -2147483648 ≤ n ∧ n < 2147483648
  | .stringV s => sch.dataTypes.getD attrNum 0 = 1 ∧ 0 ∉ s
  | .floatV bits => sch.dataTypes.getD attrNum 0 = 2 ∧ bits < 4294967296
  | .boolV b => sch.dataTypes.getD attrNum 0 = 3 ∧ b ≤ 1

/-- The value the C8 claim predicts for setAttr-then-getAttr (stated from
the spec's words): the value itself, except a STRING is right-truncated to
the declared length. -/
def c8ExpectedValue (sch : CSchema) (attrNum : Nat) : CValue → CValue
  | .stringV s => .stringV (s.take (sch.typeLength.getD attrNum 0).toNat)
  | v => v

/- ============ concrete instances used by witnesses/scenarios ============ -/

/-- The test schema of test_record_mgr.c / spec §8 scenario 4:
{a : INT, b : STRING(4), c : INT} with key [a]. -/
def testSchemaC : CSchema :=
  ⟨3, [[97], [98], [99]], [0, 1, 0], [0, 4, 0], 1, [0]⟩

/-- Payload of row (1, "aaaa", 10). -/
def rec1Data : List Nat := [1, 0, 0, 0, 97, 97, 97, 97, 10, 0, 0, 0]

/-- Payload of row (2, "bbbb", 20). -/
def rec2Data : List Nat := [2, 0, 0, 0, 98, 98, 98, 98, 20, 0, 0, 0]

/-- Payload of row (3, "cccc", 30). -/
def rec3Data : List Nat := [3, 0, 0, 0, 99, 99, 99, 99, 30, 0, 0, 0]

/-- A freshly created and opened table over testSchemaC: 0 tuples,
firstFreePage 2, recordSize 12; pages 0 and 1 of the file exist (their
contents are never touched by the heap operations). -/
def freshTable : RMTable := ⟨0, 2, 12, [zeroPage, zeroPage]⟩

def scanT1 : RMTable := (insertRecord freshTable rec1Data).1

def scanT2 : RMTable := (insertRecord scanT1 rec2Data).1

def scanT3 : RMTable := (insertRecord scanT2 rec3Data).1

/-- The spec §8 scenario-4 table after deleting row (2, "bbbb", 20),
i.e. RID (2,1). -/
def scanTableAfterDelete : RMTable := (deleteRecord scanT3 (2, 1)).1

/-- The scan predicate a > 1 (the expression evaluator is an external
collaborator; the condition tree `a > 1` evaluates the first INT attribute
of the payload). -/
def predA : List Nat → Bool := fun bs => decide ((1 : Int) < leToInt32 (bs.take 4))

/-- An arbitrary non-zero page used by the pool witnesses. -/
def pgSeven : Page := fun _ => 7

/-- Witness pool for C3: one dirty unpinned frame holding page 0. -/
def poolC3 : Pool :=
  ⟨[⟨some (0, pgSeven), 0, true, 5⟩], 6, 1, 0, ⟨[zeroPage]⟩⟩

/-- Witness pool for C4: every frame pinned. -/
def poolC4 : Pool :=
  ⟨[⟨some (0, pgSeven), 1, false, 1⟩, ⟨some (3, pgSeven), 2, false, 2⟩], 3, 2, 0,
    ⟨[zeroPage, zeroPage, zeroPage, zeroPage]⟩⟩

/-- Witness pool for C6: one dirty unpinned frame holding page 0. -/
def poolC6 : Pool :=
  ⟨[⟨some (0, pgSeven), 0, true, 1⟩], 2, 1, 0, ⟨[zeroPage]⟩⟩

/-- Witness pool for C7: a single empty frame over an empty page file. -/
def poolC7 : Pool :=
  ⟨[⟨none, 0, false, 0⟩], 1, 0, 0, ⟨[]⟩⟩

/-- Witness pool for C9: one frame holding page 5 with fixCount 2. -/
def poolC9 : Pool :=
  ⟨[⟨some (5, pgSeven), 2, false, 1⟩], 2, 1, 0, ⟨[zeroPage]⟩⟩

/- ===================== generic list/byte lemmas ===================== -/

theorem getD_set_self {α : Type} : ∀ (l : List α) (i : Nat) (x d : α),
    i < l.length → (l.set i x).getD i d = x := by
  intro l
  induction l with
  | nil => intro i x d h; simp at h
  | cons a t ih =>
    intro i x d h
    cases i with
    | zero => rfl
    | succ j =>
      rw [List.set_cons_succ, List.getD_cons_succ]
      exact ih j x d (by simpa using h)

theorem getD_set_ne {α : Type} : ∀ (l : List α) (i j : Nat) (x d : α),
    i ≠ j → (l.set i x).getD j d = l.getD j d := by
  intro l
  induction l with
  | nil => intro i j x d _; rfl
  | cons a t ih =>
    intro i j x d hij
    cases i with
    | zero =>
      cases j with
      | zero => exact absurd rfl hij
      | succ m => rfl
    | succ k =>
      cases j with
      | zero => rfl
      | succ m =>
        rw [List.set_cons_succ, List.getD_cons_succ, List.getD_cons_succ]
        exact ih k m x d (by omega)

theorem getD_append_left {α : Type} : ∀ (l r : List α) (i : Nat) (d : α),
    i < l.length → (l ++ r).getD i d = l.getD i d := by
  intro l
  induction l with
  | nil => intro r i d h; simp at h
  | cons a t ih =>
    intro r i d h
    cases i with
    | zero => rfl
    | succ j =>
      rw [List.cons_append, List.getD_cons_succ, List.getD_cons_succ]
      exact ih r j d (by simpa using h)

theorem getD_append_right {α : Type} : ∀ (l r : List α) (i : Nat) (d : α),
    l.length ≤ i → (l ++ r).getD i d = r.getD (i - l.length) d := by
  intro l
  induction l with
  | nil => intro r i d _; simp
  | cons a t ih =>
    intro r i d h
    cases i with
    | zero => simp at h
    | succ j =>
      rw [List.cons_append, List.getD_cons_succ]
      simpa using ih r j d (by simpa using h)

theorem getD_out {α : Type} : ∀ (l : List α) (i : Nat) (d : α),
    l.length ≤ i → l.getD i d = d := by
  intro l
  induction l with
  | nil => intro i d _; rfl
  | cons a t ih =>
    intro i d h
    cases i with
    | zero => simp at h
    | succ j => rw [List.getD_cons_succ]; exact ih j d (by simpa using h)

theorem getD_replicate {α : Type} : ∀ (n i : Nat) (a d : α),
    i < n → (List.replicate n a).getD i d = a := by
  intro n
  induction n with
  | zero => intro i a d h; omega
  | succ m ih =>
    intro i a d h
    rw [List.replicate_succ]
    cases i with
    | zero => rfl
    | succ j => rw [List.getD_cons_succ]; exact ih j a d (by omega)

theorem frameAt_set_self (l : List Frame) (i : Nat) (x : Frame) (h : i < l.length) :
    frameAt (l.set i x) i = x :=
  getD_set_self l i x defaultFrame h

theorem frameAt_set_ne (l : List Frame) (i j : Nat) (x : Frame) (h : i ≠ j) :
    frameAt (l.set i x) j = frameAt l j :=
  getD_set_ne l i j x defaultFrame h

theorem writeBytes_inside (p : Page) (off : Nat) (bs : List Nat) (x : Nat)
    (h1 : off ≤ x) (h2 : x < off + bs.length) :
    writeBytes p off bs x = bs.getD (x - off) 0 := by
  unfold writeBytes
  rw [if_pos ⟨h1, h2⟩]

theorem writeBytes_outside (p : Page) (off : Nat) (bs : List Nat) (x : Nat)
    (h : x < off ∨ off + bs.length ≤ x) :
    writeBytes p off bs x = p x := by
  unfold writeBytes
  rw [if_neg (by omega)]

theorem map_getD_range {α : Type} (d : α) : ∀ (bs : List α),
    (List.range bs.length).map (fun j => bs.getD j d) = bs := by
  intro bs
  induction bs with
  | nil => rfl
  | cons b t ih =>
    rw [List.length_cons, List.range_succ_eq_map, List.map_cons, List.map_map]
    have hc : ((fun j => (b :: t).getD j d) ∘ (· + 1)) = fun j => t.getD j d := by
      funext j
      simp [List.getD_cons_succ]
    rw [hc, ih]
    rfl

theorem readBytes_writeBytes (p : Page) (off : Nat) (bs : List Nat) :
    readBytes (writeBytes p off bs) off bs.length = bs := by
  unfold readBytes
  have h : ∀ j ∈ List.range bs.length, writeBytes p off bs (off + j) = bs.getD j 0 := by
    intro j hj
    rw [List.mem_range] at hj
    rw [writeBytes_inside p off bs (off + j) (by omega) (by omega)]
    congr 1
    omega
  rw [List.map_congr_left h]
  exact map_getD_range 0 bs

theorem readBytes_writeBytes' (p : Page) (off : Nat) (bs : List Nat) (len : Nat)
    (h : len = bs.length) : readBytes (writeBytes p off bs) off len = bs := by
  subst h
  exact readBytes_writeBytes p off bs

theorem leToNat4_natToLE4 (u : Nat) (h : u < 4294967296) :
    leToNat4 (natToLE4 u) = u := by
  unfold leToNat4 natToLE4
  simp only [List.getD_cons_zero, List.getD_cons_succ]
  omega

theorem leToInt32_le32 (n : Int) (h1 : -2147483648 ≤ n) (h2 : n < 2147483648) :
    leToInt32 (le32 n) = n := by
  unfold le32 leToInt32
  rw [leToNat4_natToLE4 _ (by omega)]
  split <;> omega

theorem takeWhile_eq_self_of_no_zero : ∀ (s : List Nat), 0 ∉ s →
    s.takeWhile (fun b => b != 0) = s := by
  intro s
  induction s with
  | nil => intro _; rfl
  | cons a t ih =>
    intro h
    rw [List.mem_cons, not_or] at h
    rw [List.takeWhile_cons, if_pos (by simp; omega)]
    rw [ih h.2]

theorem takeWhile_append_zeros : ∀ (a : List Nat) (k : Nat), 0 ∉ a →
    (a ++ List.replicate k 0).takeWhile (fun b => b != 0) = a := by
  intro a
  induction a with
  | nil =>
    intro k _
    cases k with
    | zero => rfl
    | succ m => simp [List.replicate_succ, List.takeWhile_cons]
  | cons x t ih =>
    intro k h
    rw [List.mem_cons, not_or] at h
    rw [List.cons_append, List.takeWhile_cons, if_pos (by simp; omega)]
    rw [ih k h.2]

theorem strncpyBytes_len (n : Nat) (src : List Nat) : (strncpyBytes n src).length = n := by
  unfold strncpyBytes
  have h : ((src.takeWhile (fun b => b != 0)).take n).length ≤ n := by
    rw [List.length_take]
    omega
  simp only [List.length_append, List.length_replicate]
  omega

theorem strncpyBytes_of_no_zero (n : Nat) (s : List Nat) (h : 0 ∉ s) :
    strncpyBytes n s = s.take n ++ List.replicate (n - (s.take n).length) 0 := by
  unfold strncpyBytes
  rw [takeWhile_eq_self_of_no_zero s h]

theorem strncpy_twice_eq (len : Nat) (s : List Nat) (h : 0 ∉ s) :
    strncpyBytes len (strncpyBytes len s)
      = s.take len ++ List.replicate (len - (s.take len).length) 0 := by
  have ha : 0 ∉ s.take len := fun hm => h (List.mem_of_mem_take hm)
  have hlen : (s.take len).length ≤ len := by rw [List.length_take]; omega
  rw [strncpyBytes_of_no_zero len s h]
  unfold strncpyBytes
  rw [takeWhile_append_zeros _ _ ha, List.take_of_length_le hlen]

theorem takeWhile_strncpy_twice (len : Nat) (s : List Nat) (h : 0 ∉ s) :
    (strncpyBytes len (strncpyBytes len s)).takeWhile (fun b => b != 0) = s.take len := by
  have ha : 0 ∉ s.take len := fun hm => h (List.mem_of_mem_take hm)
  rw [strncpy_twice_eq len s h, takeWhile_append_zeros _ _ ha]

/- ===================== claim C8 ===================== -/

/-- C8: for every record, schema, attribute index and value of the
attribute's declared type, setAttr followed by getAttr recovers a value
equal to the one written; for STRING(n) the recovered value is the written
value right-truncated to n bytes. -/
theorem c8_setAttr_getAttr_roundtrip (rec : Page) (sch : CSchema) (i : Nat) (v : CValue)
    (hv : wellTypedValue sch i v) :
    getAttr (setAttr rec sch i v) sch i = c8ExpectedValue sch i v := by
  cases v with
  | intV n =>
    obtain ⟨hdt, h1, h2⟩ := hv
    simp only [setAttr, getAttr, c8ExpectedValue, hdt, if_pos]
    rw [readBytes_writeBytes' rec (attrOffset sch i) (le32 n) 4 rfl, leToInt32_le32 n h1 h2]
  | stringV s =>
    obtain ⟨hdt, h0⟩ := hv
    have e10 : ((1 : Int) = 0) = False := eq_false (by norm_num)
    simp only [setAttr, getAttr, c8ExpectedValue, hdt, e10, if_true, if_false]
    rw [readBytes_writeBytes' rec (attrOffset sch i)
        (strncpyBytes (sch.typeLength.getD i 0).toNat
          (strncpyBytes (sch.typeLength.getD i 0).toNat s))
        (sch.typeLength.getD i 0).toNat (strncpyBytes_len _ _).symm,
      takeWhile_strncpy_twice _ _ h0]
  | floatV bits =>
    obtain ⟨hdt, hb⟩ := hv
    have e20 : ((2 : Int) = 0) = False := eq_false (by norm_num)
    have e21 : ((2 : Int) = 1) = False := eq_false (by norm_num)
    simp only [setAttr, getAttr, c8ExpectedValue, hdt, e20, e21, if_true, if_false]
    rw [readBytes_writeBytes' rec (attrOffset sch i) (natToLE4 (bits % 4294967296)) 4 rfl,
      leToNat4_natToLE4 _ (Nat.mod_lt _ (by omega)), Nat.mod_eq_of_lt hb]
  | boolV b =>
    obtain ⟨hdt, _⟩ := hv
    have e30 : ((3 : Int) = 0) = False := eq_false (by norm_num)
    have e31 : ((3 : Int) = 1) = False := eq_false (by norm_num)
    have e32 : ((3 : Int) = 2) = False := eq_false (by norm_num)
    simp only [setAttr, getAttr, c8ExpectedValue, hdt, e30, e31, e32, if_true, if_false]
    rw [writeBytes_inside _ _ _ _ (Nat.le_refl _) (by simp)]
    simp

theorem c8_setAttr_getAttr_roundtrip_witness :
    wellTypedValue testSchemaC 1 (CValue.stringV [97, 98, 99, 100, 101, 102])
    ∧ getAttr (setAttr zeroPage testSchemaC 1 (CValue.stringV [97, 98, 99, 100, 101, 102]))
        testSchemaC 1 = CValue.stringV [97, 98, 99, 100] := by
  have hw : wellTypedValue testSchemaC 1 (CValue.stringV [97, 98, 99, 100, 101, 102]) :=
    ⟨by decide, by decide⟩
  refine ⟨hw, ?_⟩
  rw [c8_setAttr_getAttr_roundtrip zeroPage testSchemaC 1 _ hw]
  decide

/- ===================== claim C9 ===================== -/

theorem findPageInPool_lt : ∀ (l : List Frame) (pn i : Nat),
    findPageInPool l pn = some i → i < l.length := by
  intro l
  induction l with
  | nil => intro pn i h; exact absurd h (by simp [findPageInPool])
  | cons fr rest ih =>
    intro pn i h
    simp only [findPageInPool] at h
    split at h
    · split at h
      · cases h
        simp
      · rcases Option.map_eq_some'.1 h with ⟨j, hj, rfl⟩
        have := ih pn j hj
        simp only [List.length_cons]
        omega
    · rcases Option.map_eq_some'.1 h with ⟨j, hj, rfl⟩
      have := ih pn j hj
      simp only [List.length_cons]
      omega

/-- C9: unpin on a non-resident page returns PageNotFound; unpin on a
resident page with positive fixCount decrements it by exactly one; unpin on
a resident page with fixCount 0 leaves the pool (hence the fixCount)
unchanged — it never goes negative. -/
theorem c9_unpin_contract (p : Pool) (pn : Nat) :
    (findPageInPool p.frames pn = none → unpinPage p pn = (RC.pageNotFound, p))
    ∧ (∀ i, findPageInPool p.frames pn = some i → 0 < (frameAt p.frames i).fixCount →
        (unpinPage p pn).1 = RC.ok
        ∧ (frameAt (unpinPage p pn).2.frames i).fixCount + 1 = (frameAt p.frames i).fixCount)
    ∧ (∀ i, findPageInPool p.frames pn = some i → (frameAt p.frames i).fixCount = 0 →
        unpinPage p pn = (RC.ok, p)) := by
  refine ⟨?_, ?_, ?_⟩
  · intro h
    simp only [unpinPage, h]
  · intro i h hfix
    have hlt := findPageInPool_lt _ _ _ h
    constructor
    · show (unpinPage p pn).1 = RC.ok
      simp only [unpinPage, h]
      rw [if_pos hfix]
    · show (frameAt (unpinPage p pn).2.frames i).fixCount + 1 = (frameAt p.frames i).fixCount
      simp only [unpinPage, h]
      rw [if_pos hfix]
      show (frameAt (p.frames.set i
          { frameAt p.frames i with fixCount := (frameAt p.frames i).fixCount - 1 }) i).fixCount + 1
          = (frameAt p.frames i).fixCount
      rw [frameAt_set_self _ _ _ hlt]
      show (frameAt p.frames i).fixCount - 1 + 1 = (frameAt p.frames i).fixCount
      omega
  · intro i h hfix
    simp only [unpinPage, h]
    rw [if_neg (by omega)]

theorem c9_unpin_contract_witness :
    findPageInPool poolC9.frames 5 = some 0
    ∧ 0 < (frameAt poolC9.frames 0).fixCount
    ∧ (unpinPage poolC9 5).1 = RC.ok
    ∧ (frameAt (unpinPage poolC9 5).2.frames 0).fixCount + 1 = (frameAt poolC9.frames 0).fixCount := by
  have h1 : findPageInPool poolC9.frames 5 = some 0 := rfl
  have h2 : 0 < (frameAt poolC9.frames 0).fixCount := by decide
  have := (c9_unpin_contract poolC9 5).2.1 0 h1 h2
  exact ⟨h1, h2, this.1, this.2⟩

/- ===================== claim C10 ===================== -/

theorem length_extendTo (f : List Page) (n : Nat) :
    (extendTo f n).length = max f.length n := by
  unfold extendTo
  simp only [List.length_append, List.length_replicate]
  omega

/-- C10: deleteRecord validates nothing: for every table state and RID it
returns RC_OK, overwrites the slot's marker byte with '$' (36) and
decrements numTuples — whatever the slot's previous marker was — so
deleting the same RID twice decrements numTuples twice. -/
theorem c10_delete_no_validation (st : RMTable) (pg sl : Nat) :
    (deleteRecord st (pg, sl)).2 = RC.ok
    ∧ (deleteRecord st (pg, sl)).1.numTuples = st.numTuples - 1
    ∧ readPage (deleteRecord st (pg, sl)).1.file pg (sl * (st.recordSize + 1)) = 36
    ∧ (deleteRecord (deleteRecord st (pg, sl)).1 (pg, sl)).1.numTuples = st.numTuples - 2 := by
  refine ⟨rfl, rfl, ?_, by simp only [deleteRecord]; omega⟩
  simp only [deleteRecord, readPage]
  rw [getD_set_self _ _ _ _ (by rw [length_extendTo]; omega)]
  rw [writeBytes_inside _ _ _ _ (Nat.le_refl _) (by simp)]
  simp

/- ===================== claim C1 ===================== -/

/-- C1: the schema round-trip through the page-1 metadata block fails on
the key description: createTable writes the key attribute indices without
the preceding keySize field that openTable reads (spec §6 layout), so for
the test schema (keySize 1, keyAttrs [0]) openTable decodes keySize 0 and
no key attributes — the decoded schema is not structurally equal to the
created one. -/
theorem c1_schema_roundtrip_keysize_bug :
    testSchemaC.keySize = 1
    ∧ testSchemaC.keyAttrs = [0]
    ∧ (openTableSchema (createTableMetaPage testSchemaC)).keySize = 0
    ∧ (openTableSchema (createTableMetaPage testSchemaC)).keyAttrs = ([] : List Int)
    ∧ openTableSchema (createTableMetaPage testSchemaC) ≠ testSchemaC := by
  decide

/- ===================== claim C2 ===================== -/

/-- C2: the scan does not skip tombstoned slots: next() never inspects the
slot marker byte.  In the spec §8 scenario-4 table (rows (1,"aaaa",10),
(2,"bbbb",20), (3,"cccc",30) inserted at (2,0), (2,1), (2,2), then RID
(2,1) deleted — its marker byte is the '$' tombstone 36), rescanning with
the predicate a > 1 emits the deleted record (2,"bbbb",20) at (2,1) as its
first result, contradicting the claim that tombstoned slots are never
emitted. -/
theorem c2_scan_emits_tombstoned_record :
    (insertRecord freshTable rec1Data).2 = (2, 0)
    ∧ (insertRecord scanT1 rec2Data).2 = (2, 1)
    ∧ (insertRecord scanT2 rec3Data).2 = (2, 2)
    ∧ (deleteRecord scanT3 (2, 1)).2 = RC.ok
    ∧ readPage scanTableAfterDelete.file 2 13 = 36
    ∧ scanTableAfterDelete.numTuples = 2
    ∧ RMNext scanTableAfterDelete (some predA) ⟨2, 0, 0⟩
        = (RC.ok, ⟨2, 1, 2⟩, some ((2, 1), rec2Data)) := by
  decide

/- ============== victim selection lemmas (buffer pool) ============== -/

theorem getD_mem {α : Type} : ∀ (l : List α) (i : Nat) (d : α),
    i < l.length → l.getD i d ∈ l := by
  intro l
  induction l with
  | nil => intro i d h; simp at h
  | cons a t ih =>
    intro i d h
    cases i with
    | zero => exact List.mem_cons_self a t
    | succ j =>
      rw [List.getD_cons_succ]
      exact List.mem_cons_of_mem a (ih j d (by simpa using h))

theorem bool_not_true {b : Bool} (h : ¬ b = true) : b = false := by
  cases b
  · rfl
  · exact absurd rfl h

theorem frameAt_mem (l : List Frame) (i : Nat) (h : i < l.length) : frameAt l i ∈ l :=
  getD_mem l i defaultFrame h

theorem frameAt_cons_zero (a : Frame) (t : List Frame) : frameAt (a :: t) 0 = a := rfl

theorem frameAt_cons_succ (a : Frame) (t : List Frame) (k : Nat) :
    frameAt (a :: t) (k + 1) = frameAt t k := by
  unfold frameAt
  rw [List.getD_cons_succ]

theorem findEmptyIdx_none : ∀ (l : List Frame), findEmptyIdx l = none →
    ∀ fr ∈ l, fr.content.isNone = false := by
  intro l
  induction l with
  | nil => intro _ fr hfr; simp at hfr
  | cons a t ih =>
    intro h fr hfr
    simp only [findEmptyIdx] at h
    by_cases hc : a.content.isNone = true
    · rw [if_pos hc] at h
      cases h
    · rw [if_neg hc] at h
      rcases List.mem_cons.1 hfr with rfl | hm
      · exact bool_not_true hc
      · exact ih (Option.map_eq_none'.1 h) fr hm

theorem findEmptyIdx_some : ∀ (l : List Frame) (j : Nat), findEmptyIdx l = some j →
    j < l.length ∧ (frameAt l j).content.isNone = true
      ∧ ∀ k < j, (frameAt l k).content.isNone = false := by
  intro l
  induction l with
  | nil => intro j h; simp [findEmptyIdx] at h
  | cons a t ih =>
    intro j h
    simp only [findEmptyIdx] at h
    by_cases hc : a.content.isNone = true
    · rw [if_pos hc] at h
      cases h
      refine ⟨by simp, by rwa [frameAt_cons_zero], ?_⟩
      intro k hk
      omega
    · rw [if_neg hc] at h
      rcases Option.map_eq_some'.1 h with ⟨j', hj', rfl⟩
      obtain ⟨h1, h2, h3⟩ := ih j' hj'
      refine ⟨by simp; omega, by rwa [frameAt_cons_succ], ?_⟩
      intro k hk
      cases k with
      | zero => rw [frameAt_cons_zero]; exact bool_not_true hc
      | succ m => rw [frameAt_cons_succ]; exact h3 m (by omega)

theorem selectVictimIdx_none : ∀ (l : List Frame), selectVictimIdx l = none →
    ∀ fr ∈ l, fr.fixCount = 0 → INT_MAX ≤ fr.lastUsed := by
  intro l
  induction l with
  | nil => intro _ fr hfr; simp at hfr
  | cons a t ih =>
    intro h fr hfr hfix
    simp only [selectVictimIdx] at h
    by_cases hc : a.fixCount = 0 ∧ a.lastUsed < INT_MAX
    · rw [if_pos hc] at h
      cases hr : selectVictimIdx t with
      | none => rw [hr] at h; simp at h
      | some q =>
        rw [hr] at h
        simp only [Option.map_some'] at h
        split at h <;> cases h
    · rw [if_neg hc] at h
      rcases List.mem_cons.1 hfr with rfl | hm
      · omega
      · exact ih (Option.map_eq_none'.1 h) fr hm hfix

theorem selectVictimIdx_some : ∀ (l : List Frame) (v t : Nat),
    selectVictimIdx l = some (v, t) →
    v < l.length ∧ (frameAt l v).fixCount = 0 ∧ (frameAt l v).lastUsed = t ∧ t < INT_MAX
      ∧ ∀ k < l.length, (frameAt l k).fixCount = 0 → (frameAt l k).lastUsed < INT_MAX →
          t < (frameAt l k).lastUsed ∨ (t = (frameAt l k).lastUsed ∧ v ≤ k) := by
  intro l
  induction l with
  | nil => intro v t h; simp [selectVictimIdx] at h
  | cons a rest ih =>
    intro v t h
    simp only [selectVictimIdx] at h
    split at h
    · -- head eligible: fixCount 0 and lastUsed < INT_MAX
      have ha := ‹a.fixCount = 0 ∧ a.lastUsed < INT_MAX›
      cases hr : selectVictimIdx rest with
      | none =>
        rw [hr] at h
        simp only [Option.map_none'] at h
        cases h
        refine ⟨by simp, by simp [frameAt_cons_zero, ha.1], by simp [frameAt_cons_zero], ha.2, ?_⟩
        intro k hk hfix hlu
        cases k with
        | zero => right; exact ⟨by simp [frameAt_cons_zero], Nat.le_refl 0⟩
        | succ m =>
          rw [frameAt_cons_succ] at hfix hlu ⊢
          have hm : m < rest.length := by simpa using hk
          have := selectVictimIdx_none rest hr (frameAt rest m) (frameAt_mem _ _ hm) hfix
          omega
      | some q =>
        obtain ⟨j, tj⟩ := q
        rw [hr] at h
        simp only [Option.map_some'] at h
        obtain ⟨h1, h2, h3, h4, h5⟩ := ih j tj hr
        by_cases htj : tj < a.lastUsed
        · rw [if_pos htj] at h
          cases h
          refine ⟨by simp; omega, by rwa [frameAt_cons_succ], by rwa [frameAt_cons_succ], h4, ?_⟩
          intro k hk hfix hlu
          cases k with
          | zero =>
            left
            simpa [frameAt_cons_zero] using htj
          | succ m =>
            rw [frameAt_cons_succ] at hfix hlu ⊢
            rcases h5 m (by simpa using hk) hfix hlu with hlt | ⟨heq, hle⟩
            · left; exact hlt
            · right; exact ⟨heq, by omega⟩
        · rw [if_neg htj] at h
          cases h
          refine ⟨by simp, by simp [frameAt_cons_zero, ha.1], by simp [frameAt_cons_zero], ha.2, ?_⟩
          intro k hk hfix hlu
          cases k with
          | zero => right; exact ⟨by simp [frameAt_cons_zero], Nat.le_refl 0⟩
          | succ m =>
            rw [frameAt_cons_succ] at hfix hlu ⊢
            have h6 := h5 m (by simpa using hk) hfix hlu
            omega
    · -- head not eligible
      have ha := ‹¬ (a.fixCount = 0 ∧ a.lastUsed < INT_MAX)›
      rcases Option.map_eq_some'.1 h with ⟨⟨j, tj⟩, hj, hpair⟩
      have heq1 : j + 1 = v := congrArg Prod.fst hpair
      have heq2 : tj = t := congrArg Prod.snd hpair
      subst heq1
      subst heq2
      obtain ⟨h1, h2, h3, h4, h5⟩ := ih j tj hj
      refine ⟨by simp; omega, by rwa [frameAt_cons_succ], by rwa [frameAt_cons_succ], h4, ?_⟩
      intro k hk hfix hlu
      cases k with
      | zero =>
        rw [frameAt_cons_zero] at hfix hlu
        omega
      | succ m =>
        rw [frameAt_cons_succ] at hfix hlu ⊢
        rcases h5 m (by simpa using hk) hfix hlu with hlt | ⟨heq, hle⟩
        · left; exact hlt
        · right; exact ⟨heq, by omega⟩

/- ============== pinPage on a miss (shape lemmas) ============== -/

theorem readBlockF_inrange (f : SMFile) (n : Nat) (h : n < f.pages.length) :
    readBlockF f n = some (f.pages.getD n zeroPage) := by
  unfold readBlockF
  rw [if_pos h]

theorem readBlockF_out (f : SMFile) (n : Nat) (h : f.pages.length ≤ n) :
    readBlockF f n = none := by
  unfold readBlockF
  rw [if_neg (by omega)]

theorem ensureCapacityF_length (f : SMFile) (m : Nat) :
    (ensureCapacityF f m).pages.length = max f.pages.length m := by
  unfold ensureCapacityF
  simp only [List.length_append, List.length_replicate]
  omega

theorem readBlockF_ensure (f : SMFile) (n : Nat) (h : f.pages.length ≤ n) :
    readBlockF (ensureCapacityF f (n + 1)) n = some zeroPage := by
  unfold readBlockF ensureCapacityF
  simp only [List.length_append, List.length_replicate]
  rw [if_pos (by omega)]
  rw [getD_append_right _ _ _ _ h, getD_replicate _ _ _ _ (by omega)]

theorem pinPage_miss_inrange (p : Pool) (pn v : Nat) (p1 : Pool)
    (hmiss : findPageInPool p.frames pn = none)
    (hgr : getFrameToReplace p = (some v, p1))
    (hlt : pn < p1.file.pages.length) :
    pinPage p pn
      = (RC.ok,
          { p1 with
            frames := (p1.frames.set v
              (Frame.mk (some (pn, p1.file.pages.getD pn zeroPage)) 1 false p1.lruClock)),
            readIOCount := p1.readIOCount + 1,
            lruClock := p1.lruClock + 1 },
          some (pn, p1.file.pages.getD pn zeroPage)) := by
  unfold pinPage
  simp only [hmiss, hgr, readBlockF_inrange p1.file pn hlt]

theorem pinPage_miss_extend (p : Pool) (pn v : Nat) (p1 : Pool)
    (hmiss : findPageInPool p.frames pn = none)
    (hgr : getFrameToReplace p = (some v, p1))
    (hge : p1.file.pages.length ≤ pn) :
    pinPage p pn
      = (RC.ok,
          { p1 with
            frames := (p1.frames.set v (Frame.mk (some (pn, zeroPage)) 1 false p1.lruClock)),
            file := ensureCapacityF p1.file (pn + 1),
            readIOCount := p1.readIOCount + 1,
            lruClock := p1.lruClock + 1 },
          some (pn, zeroPage)) := by
  unfold pinPage
  simp only [hmiss, hgr, readBlockF_out p1.file pn hge, readBlockF_ensure p1.file pn hge]

/- ===================== claim C3 ===================== -/

/-- C3: a pin miss that evicts a dirty victim writes the victim's buffer to
its page in the file before the frame is reused: pin succeeds, writeIO goes
up by exactly one, the frame's dirty flag ends up cleared, and the on-disk
contents of the victim's former pageNum equal the victim's in-memory buffer
immediately prior to eviction. -/
theorem c3_dirty_eviction_writeback (p : Pool) (pn v t vpn : Nat) (d : Page)
    (hmiss : findPageInPool p.frames pn = none)
    (hemp : findEmptyIdx p.frames = none)
    (hsel : selectVictimIdx p.frames = some (v, t))
    (hcont : (frameAt p.frames v).content = some (vpn, d))
    (hdirty : (frameAt p.frames v).dirty = true)
    (hvpn : vpn < p.file.pages.length) :
    (pinPage p pn).1 = RC.ok
    ∧ (pinPage p pn).2.1.writeIOCount = p.writeIOCount + 1
    ∧ (frameAt (pinPage p pn).2.1.frames v).dirty = false
    ∧ fileRead (pinPage p pn).2.1.file vpn = d := by
  have hv : v < p.frames.length := (selectVictimIdx_some _ _ _ hsel).1
  have hgr : getFrameToReplace p
      = (some v,
          { p with
            file := (⟨p.file.pages.set vpn d⟩ : SMFile),
            writeIOCount := p.writeIOCount + 1,
            frames := (p.frames.set v { frameAt p.frames v with dirty := false }) }) := by
    unfold getFrameToReplace
    simp only [hemp, hsel, hcont, hdirty, writeBlockF, if_pos hvpn, if_true, Option.getD_some]
  have hlen : (p.file.pages.set vpn d).length = p.file.pages.length := List.length_set _ _ _
  have hv' : v < (p.frames.set v { frameAt p.frames v with dirty := false }).length := by
    simpa using hv
  by_cases hpn : pn < p.file.pages.length
  · rw [pinPage_miss_inrange p pn v _ hmiss hgr (by simpa [hlen] using hpn)]
    refine ⟨rfl, rfl, ?_, ?_⟩
    · show (frameAt ((p.frames.set v { frameAt p.frames v with dirty := false }).set v
          (Frame.mk (some (pn, (p.file.pages.set vpn d).getD pn zeroPage)) 1 false p.lruClock))
            v).dirty = false
      rw [frameAt_set_self _ _ _ hv']
    · show (p.file.pages.set vpn d).getD vpn zeroPage = d
      exact getD_set_self _ _ _ _ hvpn
  · rw [pinPage_miss_extend p pn v _ hmiss hgr (by simp only [hlen]; omega)]
    refine ⟨rfl, rfl, ?_, ?_⟩
    · show (frameAt ((p.frames.set v { frameAt p.frames v with dirty := false }).set v
          (Frame.mk (some (pn, zeroPage)) 1 false p.lruClock)) v).dirty = false
      rw [frameAt_set_self _ _ _ hv']
    · show ((p.file.pages.set vpn d)
          ++ List.replicate ((pn + 1) - (p.file.pages.set vpn d).length) zeroPage).getD vpn zeroPage
          = d
      rw [getD_append_left _ _ _ _ (by simpa [hlen] using hvpn)]
      exact getD_set_self _ _ _ _ hvpn

/-- Concrete run of the C3 theorem: a one-frame pool holding dirty page 0
(bytes pgSeven), a miss on page 1 evicts it and writes it through. -/
theorem c3_dirty_eviction_writeback_witness :
    (pinPage poolC3 1).1 = RC.ok
    ∧ (pinPage poolC3 1).2.1.writeIOCount = poolC3.writeIOCount + 1
    ∧ (frameAt (pinPage poolC3 1).2.1.frames 0).dirty = false
    ∧ fileRead (pinPage poolC3 1).2.1.file 0 = pgSeven :=
  c3_dirty_eviction_writeback poolC3 1 0 5 0 pgSeven rfl rfl rfl rfl rfl (by decide)

/- ===================== claim C7 ===================== -/

theorem getFrameToReplace_file_length (p : Pool)
    (hw : ∀ fr ∈ p.frames, ∀ q e, fr.content = some (q, e) → q < p.file.pages.length) :
    (getFrameToReplace p).2.file.pages.length = p.file.pages.length := by
  unfold getFrameToReplace
  cases he : findEmptyIdx p.frames with
  | some i => rfl
  | none =>
    cases hs : selectVictimIdx p.frames with
    | none => rfl
    | some q =>
      obtain ⟨v, t⟩ := q
      have hv : v < p.frames.length := (selectVictimIdx_some _ _ _ hs).1
      by_cases hd : (frameAt p.frames v).dirty
      · cases hc : (frameAt p.frames v).content with
        | none => simp [hc, hd]
        | some c =>
          obtain ⟨vpn, e⟩ := c
          have hvpn : vpn < p.file.pages.length := hw _ (getD_mem _ _ _ hv) vpn e hc
          simp only [hc, hd, writeBlockF, if_pos hvpn, if_true, Option.getD_some]
          simp [List.length_set]
      · simp [hd]

/-- C7: pinning a page number at or beyond the current end of the page file
succeeds (given the miss has an available frame to fill), extends the file
to exactly pageNum + 1 pages, and delivers a zero-filled page in the
handle. -/
theorem c7_pin_extends_file (p : Pool) (pn : Nat)
    (hw : ∀ fr ∈ p.frames, ∀ q e, fr.content = some (q, e) → q < p.file.pages.length)
    (hmiss : findPageInPool p.frames pn = none)
    (hpn : p.file.pages.length ≤ pn)
    (v : Nat) (hsel : (getFrameToReplace p).1 = some v) :
    (pinPage p pn).1 = RC.ok
    ∧ (pinPage p pn).2.1.file.pages.length = pn + 1
    ∧ (pinPage p pn).2.2 = some (pn, zeroPage) := by
  have hgr : getFrameToReplace p = (some v, (getFrameToReplace p).2) := by
    rw [← hsel]
  have hlen : (getFrameToReplace p).2.file.pages.length = p.file.pages.length :=
    getFrameToReplace_file_length p hw
  rw [pinPage_miss_extend p pn v _ hmiss hgr (by omega)]
  refine ⟨rfl, ?_, rfl⟩
  show (ensureCapacityF (getFrameToReplace p).2.file (pn + 1)).pages.length = pn + 1
  rw [ensureCapacityF_length]
  omega

/-- Concrete run of the C7 theorem: an empty one-frame pool over an empty
page file; pinning page 0 extends the file to 1 page and hands out zeros. -/
theorem c7_pin_extends_file_witness :
    (pinPage poolC7 0).1 = RC.ok
    ∧ (pinPage poolC7 0).2.1.file.pages.length = 0 + 1
    ∧ (pinPage poolC7 0).2.2 = some (0, zeroPage) :=
  c7_pin_extends_file poolC7 0
    (by
      intro fr hfr q e hc
      rw [show fr = (⟨none, 0, false, 0⟩ : Frame) from by simpa [poolC7] using hfr] at hc
      simp at hc)
    rfl (by decide) 0 rfl

/- ===================== claim C4 ===================== -/

theorem findEmptyIdx_eq_none (l : List Frame) (h : ∀ fr ∈ l, fr.content.isNone = false) :
    findEmptyIdx l = none := by
  cases he : findEmptyIdx l with
  | none => rfl
  | some j =>
    obtain ⟨h1, h2, _⟩ := findEmptyIdx_some l j he
    have h3 := h _ (frameAt_mem _ _ h1)
    rw [h2] at h3
    cases h3

theorem findEmptyIdx_isSome (l : List Frame) (hex : ∃ fr ∈ l, fr.content.isNone = true) :
    ∃ j, findEmptyIdx l = some j := by
  cases he : findEmptyIdx l with
  | some j => exact ⟨j, rfl⟩
  | none =>
    obtain ⟨fr, hfr, hn⟩ := hex
    have h1 := findEmptyIdx_none l he fr hfr
    rw [h1] at hn
    cases hn

theorem selectVictimIdx_isSome (l : List Frame)
    (hw2 : ∀ fr ∈ l, fr.lastUsed < INT_MAX)
    (hex : ∃ fr ∈ l, fr.fixCount = 0) : ∃ q, selectVictimIdx l = some q := by
  cases hs : selectVictimIdx l with
  | some q => exact ⟨q, rfl⟩
  | none =>
    obtain ⟨fr, hfr, hfix⟩ := hex
    have h1 := selectVictimIdx_none l hs fr hfr hfix
    have h2 := hw2 fr hfr
    omega

theorem getFrameToReplace_fst_of_victim (p : Pool) (v t : Nat)
    (he : findEmptyIdx p.frames = none)
    (hs : selectVictimIdx p.frames = some (v, t)) :
    (getFrameToReplace p).1 = some v := by
  unfold getFrameToReplace
  simp only [he, hs]
  by_cases hd : (frameAt p.frames v).dirty
  · cases hc : (frameAt p.frames v).content with
    | none => simp [hd, hc]
    | some c =>
      obtain ⟨vpn, d⟩ := c
      simp [hd, hc]
  · simp [hd]

/-- C4: on a pin miss under the LRU policy the victim is chosen as the
lowest-index empty frame when one exists; otherwise, among the frames with
fixCount 0, the frame with the smallest recency stamp, ties broken by the
smallest frame index; and when no frame has fixCount 0 the pin returns
PageNotFound with the pool untouched.  (Reachable-state hypotheses: empty
frames are unpinned, and all recency stamps — values of the monotonically
increasing lruClock — are below INT_MAX.) -/
theorem c4_lru_victim_selection (p : Pool) (pn : Nat)
    (hw1 : ∀ fr ∈ p.frames, fr.content.isNone = true → fr.fixCount = 0)
    (hw2 : ∀ fr ∈ p.frames, fr.lastUsed < INT_MAX)
    (hmiss : findPageInPool p.frames pn = none) :
    ((∃ fr ∈ p.frames, fr.content.isNone = true) →
      ∃ j, (getFrameToReplace p).1 = some j ∧ j < p.frames.length
        ∧ (frameAt p.frames j).content.isNone = true
        ∧ ∀ k < j, (frameAt p.frames k).content.isNone = false)
    ∧ ((∀ fr ∈ p.frames, fr.content.isNone = false) → (∃ fr ∈ p.frames, fr.fixCount = 0) →
      ∃ v, (getFrameToReplace p).1 = some v ∧ v < p.frames.length
        ∧ (frameAt p.frames v).fixCount = 0
        ∧ ∀ k < p.frames.length, (frameAt p.frames k).fixCount = 0 →
            (frameAt p.frames v).lastUsed < (frameAt p.frames k).lastUsed
            ∨ ((frameAt p.frames v).lastUsed = (frameAt p.frames k).lastUsed ∧ v ≤ k))
    ∧ ((∀ fr ∈ p.frames, 0 < fr.fixCount) → pinPage p pn = (RC.pageNotFound, p, none)) := by
  refine ⟨?_, ?_, ?_⟩
  · intro hex
    obtain ⟨j, hj⟩ := findEmptyIdx_isSome p.frames hex
    obtain ⟨h1, h2, h3⟩ := findEmptyIdx_some p.frames j hj
    refine ⟨j, ?_, h1, h2, h3⟩
    unfold getFrameToReplace
    rw [hj]
  · intro hocc hex
    have he := findEmptyIdx_eq_none p.frames hocc
    obtain ⟨⟨v, t⟩, hs⟩ := selectVictimIdx_isSome p.frames hw2 hex
    obtain ⟨h1, h2, h3, _, h5⟩ := selectVictimIdx_some p.frames v t hs
    refine ⟨v, getFrameToReplace_fst_of_victim p v t he hs, h1, h2, ?_⟩
    intro k hk hfixk
    have h6 := h5 k hk hfixk (hw2 _ (frameAt_mem _ _ hk))
    omega
  · intro hpin
    have hocc : ∀ fr ∈ p.frames, fr.content.isNone = false := by
      intro fr hfr
      cases hb : fr.content.isNone with
      | false => rfl
      | true =>
        have h1 := hw1 fr hfr hb
        have h2 := hpin fr hfr
        omega
    have he := findEmptyIdx_eq_none p.frames hocc
    have hs : selectVictimIdx p.frames = none := by
      cases hs' : selectVictimIdx p.frames with
      | none => rfl
      | some q =>
        obtain ⟨v, t⟩ := q
        obtain ⟨h1, h2, _, _, _⟩ := selectVictimIdx_some p.frames v t hs'
        have h3 := hpin _ (frameAt_mem _ _ h1)
        omega
    unfold pinPage getFrameToReplace
    simp only [hmiss, he, hs]

/-- Concrete run of the C4 theorem, third branch: every frame pinned, the
miss fails with PageNotFound and the pool is untouched. -/
theorem c4_lru_victim_selection_witness :
    pinPage poolC4 7 = (RC.pageNotFound, poolC4, none) :=
  (c4_lru_victim_selection poolC4 7 (by decide) (by decide) rfl).2.2 (by decide)

/- ===================== claim C6 ===================== -/

theorem occupiedPages_cons_none (fr : Frame) (rest : List Frame) (hc : fr.content = none) :
    occupiedPages (fr :: rest) = occupiedPages rest := by
  unfold occupiedPages
  rw [List.filterMap_cons, hc]
  rfl

theorem occupiedPages_cons_some (fr : Frame) (rest : List Frame) (pn : Nat) (d : Page)
    (hc : fr.content = some (pn, d)) :
    occupiedPages (fr :: rest) = pn :: occupiedPages rest := by
  unfold occupiedPages
  rw [List.filterMap_cons, hc]
  rfl

theorem mem_occupiedPages (l : List Frame) (i pn : Nat) (d : Page)
    (hi : i < l.length) (hc : (frameAt l i).content = some (pn, d)) :
    pn ∈ occupiedPages l := by
  unfold occupiedPages
  rw [List.mem_filterMap]
  exact ⟨frameAt l i, frameAt_mem l i hi, by rw [hc]; rfl⟩

theorem forceFlushGo_spec : ∀ (l : List Frame) (f : SMFile) (w : Nat),
    (∀ fr ∈ l, fr.fixCount = 0) →
    (occupiedPages l).Nodup →
    (∀ q ∈ occupiedPages l, q < f.pages.length) →
    (forceFlushGo l f w).1 = RC.ok
    ∧ (forceFlushGo l f w).2.2.1.pages.length = f.pages.length
    ∧ (∀ q, q ∉ occupiedPages l →
        (forceFlushGo l f w).2.2.1.pages.getD q zeroPage = f.pages.getD q zeroPage)
    ∧ ∀ i < l.length, ∀ pn d,
        (frameAt l i).content = some (pn, d) → (frameAt l i).dirty = true →
        (forceFlushGo l f w).2.2.1.pages.getD pn zeroPage = d := by
  intro l
  induction l with
  | nil =>
    intro f w _ _ _
    refine ⟨rfl, rfl, fun q _ => rfl, ?_⟩
    intro i hi
    simp at hi
  | cons fr rest ih =>
    intro f w hfix hnd hbound
    have hfix0 : fr.fixCount = 0 := hfix fr (List.mem_cons_self fr rest)
    have hfixr : ∀ g ∈ rest, g.fixCount = 0 := fun g hg => hfix g (List.mem_cons_of_mem fr hg)
    cases hc : fr.content with
    | none =>
      have hocc := occupiedPages_cons_none fr rest hc
      rw [hocc] at hnd hbound
      obtain ⟨ih1, ih2, ih3, ih4⟩ := ih f w hfixr hnd hbound
      have hgo : forceFlushGo (fr :: rest) f w
          = ((forceFlushGo rest f w).1, fr :: (forceFlushGo rest f w).2.1,
             (forceFlushGo rest f w).2.2.1, (forceFlushGo rest f w).2.2.2) := by
        simp only [forceFlushGo, hc]
      rw [hgo]
      refine ⟨ih1, ih2, fun q hq => ih3 q (hocc ▸ hq), ?_⟩
      intro i hi pn d hci hdi
      cases i with
      | zero =>
        rw [frameAt_cons_zero] at hci
        rw [hci] at hc
        cases hc
      | succ m =>
        rw [frameAt_cons_succ] at hci hdi
        exact ih4 m (by simpa using hi) pn d hci hdi
    | some c =>
      obtain ⟨pn, d⟩ := c
      have hocc := occupiedPages_cons_some fr rest pn d hc
      rw [hocc] at hnd hbound
      have hpn : pn < f.pages.length := hbound pn (List.mem_cons_self _ _)
      have hndr : (occupiedPages rest).Nodup := hnd.of_cons
      have hpnr : pn ∉ occupiedPages rest := by
        have := List.nodup_cons.1 hnd
        exact this.1
      by_cases hd : fr.dirty = true
      · -- dirty, unpinned: written out, then the rest is flushed
        have hw : writeBlockF f pn d = some ⟨f.pages.set pn d⟩ := by
          unfold writeBlockF
          rw [if_pos hpn]
        have hgo : forceFlushGo (fr :: rest) f w
            = ((forceFlushGo rest ⟨f.pages.set pn d⟩ (w + 1)).1,
               { fr with dirty := false } :: (forceFlushGo rest ⟨f.pages.set pn d⟩ (w + 1)).2.1,
               (forceFlushGo rest ⟨f.pages.set pn d⟩ (w + 1)).2.2.1,
               (forceFlushGo rest ⟨f.pages.set pn d⟩ (w + 1)).2.2.2) := by
          simp only [forceFlushGo, hc, hw, if_pos (And.intro hd hfix0)]
        have hlen1 : (f.pages.set pn d).length = f.pages.length := List.length_set _ _ _
        have hbnd2 : ∀ q ∈ occupiedPages rest, q < (⟨f.pages.set pn d⟩ : SMFile).pages.length := by
          intro q hq
          show q < (f.pages.set pn d).length
          rw [List.length_set]
          exact hbound q (List.mem_cons_of_mem _ hq)
        obtain ⟨ih1, ih2, ih3, ih4⟩ := ih ⟨f.pages.set pn d⟩ (w + 1) hfixr hndr hbnd2
        rw [hgo]
        refine ⟨ih1, by rw [ih2]; exact hlen1, ?_, ?_⟩
        · intro q hq
          rw [hocc, List.mem_cons, not_or] at hq
          rw [ih3 q hq.2]
          exact getD_set_ne _ _ _ _ _ (fun e => hq.1 e.symm)
        · intro i hi pn' d' hci hdi
          cases i with
          | zero =>
            rw [frameAt_cons_zero] at hci
            rw [hci] at hc
            injection hc with hc2
            injection hc2 with e1 e2
            subst e1
            subst e2
            rw [ih3 pn' hpnr]
            exact getD_set_self _ _ _ _ hpn
          | succ m =>
            rw [frameAt_cons_succ] at hci hdi
            exact ih4 m (by simpa using hi) pn' d' hci hdi
      · -- clean (or pinned — impossible here): skipped
        have hgo : forceFlushGo (fr :: rest) f w
            = ((forceFlushGo rest f w).1, fr :: (forceFlushGo rest f w).2.1,
               (forceFlushGo rest f w).2.2.1, (forceFlushGo rest f w).2.2.2) := by
          simp only [forceFlushGo, hc,
            if_neg (show ¬(fr.dirty = true ∧ fr.fixCount = 0) from fun hcontra => hd hcontra.1)]
        obtain ⟨ih1, ih2, ih3, ih4⟩ := ih f w hfixr hndr
          (fun q hq => hbound q (List.mem_cons_of_mem _ hq))
        rw [hgo]
        refine ⟨ih1, ih2, ?_, ?_⟩
        · intro q hq
          rw [hocc, List.mem_cons, not_or] at hq
          exact ih3 q hq.2
        · intro i hi pn' d' hci hdi
          cases i with
          | zero =>
            rw [frameAt_cons_zero] at hdi
            exact absurd hdi hd
          | succ m =>
            rw [frameAt_cons_succ] at hci hdi
            exact ih4 m (by simpa using hi) pn' d' hci hdi

/-- C6: shutdown returns PinnedPages and leaves the pool intact whenever a
frame is pinned; with no pins it flushes every dirty frame to its page
before the file is closed (the closed file holds each dirty frame's bytes)
and returns OK clearing the pool; a second shutdown on the shut-down pool
returns InvalidParam. -/
theorem c6_shutdown_contract (p : Pool)
    (hnd : (occupiedPages p.frames).Nodup)
    (hbound : ∀ q ∈ occupiedPages p.frames, q < p.file.pages.length) :
    ((∃ fr ∈ p.frames, 0 < fr.fixCount) →
        shutdownBufferPool (some p) = (RC.pinnedPages, some p, none))
    ∧ ((∀ fr ∈ p.frames, fr.fixCount = 0) →
        (shutdownBufferPool (some p)).1 = RC.ok
        ∧ (shutdownBufferPool (some p)).2.1 = none
        ∧ ∀ i < p.frames.length, ∀ pn d,
            (frameAt p.frames i).content = some (pn, d) → (frameAt p.frames i).dirty = true →
            finalPageAt (shutdownBufferPool (some p)) pn = some d)
    ∧ shutdownBufferPool none = (RC.invalidParam, none, none) := by
  refine ⟨?_, ?_, rfl⟩
  · intro hex
    have hany : p.frames.any (fun fr => fr.fixCount != 0) = true := by
      rw [List.any_eq_true]
      obtain ⟨fr, hfr, hfx⟩ := hex
      exact ⟨fr, hfr, by simpa using (by omega : fr.fixCount ≠ 0)⟩
    simp only [shutdownBufferPool]
    rw [if_pos hany]
  · intro hall
    have hany : p.frames.any (fun fr => fr.fixCount != 0) = false := by
      rw [List.any_eq_false]
      intro fr hfr
      simpa using hall fr hfr
    obtain ⟨f1, f2, f3, f4⟩ := forceFlushGo_spec p.frames p.file p.writeIOCount hall hnd hbound
    have hsd : shutdownBufferPool (some p)
        = (RC.ok, none, some (forceFlushGo p.frames p.file p.writeIOCount).2.2.1) := by
      simp only [shutdownBufferPool, forceFlushPool, hany, Bool.false_eq_true, if_false, f1,
        if_true]
    refine ⟨by rw [hsd], by rw [hsd], ?_⟩
    intro i hi pn d hci hdi
    rw [hsd]
    unfold finalPageAt fileRead
    have hpn : pn < p.file.pages.length :=
      hbound pn (mem_occupiedPages p.frames i pn d hi hci)
    simp only []
    rw [if_pos (by rw [f2]; exact hpn)]
    rw [f4 i hi pn d hci hdi]

/-- Concrete run of the C6 theorem: a pool with a single dirty unpinned
frame holding page 0; shutdown succeeds and the closed file holds the
frame's bytes at page 0. -/
theorem c6_shutdown_contract_witness :
    (shutdownBufferPool (some poolC6)).1 = RC.ok
    ∧ (shutdownBufferPool (some poolC6)).2.1 = none
    ∧ finalPageAt (shutdownBufferPool (some poolC6)) 0 = some pgSeven := by
  have h := (c6_shutdown_contract poolC6 (by decide) (by decide)).2.1 (by decide)
  exact ⟨h.1, h.2.1, h.2.2 0 (by decide) 0 pgSeven rfl rfl⟩

/- ============== live-slot counting lemmas (claim C5) ============== -/

theorem readPage_set_self (f : List Page) (p : Nat) (q : Page) (h : p < f.length) :
    readPage (f.set p q) p = q :=
  getD_set_self f p q zeroPage h

theorem readPage_set_ne (f : List Page) (p j : Nat) (q : Page) (h : p ≠ j) :
    readPage (f.set p q) j = readPage f j :=
  getD_set_ne f p j q zeroPage h

theorem readPage_out (f : List Page) (p : Nat) (h : f.length ≤ p) :
    readPage f p = zeroPage :=
  getD_out f p zeroPage h

theorem readPage_extendTo (f : List Page) (n p : Nat) :
    readPage (extendTo f n) p = readPage f p := by
  unfold readPage extendTo
  by_cases h : p < f.length
  · exact getD_append_left _ _ _ _ h
  · rw [getD_append_right _ _ _ _ (by omega), getD_out f p _ (by omega)]
    by_cases h2 : p - f.length < n - f.length
    · exact getD_replicate _ _ _ _ h2
    · exact getD_out _ _ _ (by simp only [List.length_replicate]; omega)

theorem countP_congr_list (l : List Nat) (p q : Nat → Bool) (h : ∀ y ∈ l, p y = q y) :
    l.countP p = l.countP q := by
  induction l with
  | nil => rfl
  | cons a t ih =>
    rw [List.countP_cons, List.countP_cons, h a (List.mem_cons_self _ _),
      ih (fun y hy => h y (List.mem_cons_of_mem _ hy))]

theorem countP_flip (l : List Nat) (x : Nat) (p q : Nat → Bool) :
    l.Nodup → x ∈ l → (∀ y ∈ l, y ≠ x → q y = p y) → p x = false → q x = true →
    l.countP q = l.countP p + 1 := by
  induction l with
  | nil => intro _ hx; simp at hx
  | cons a t ih =>
    intro hnd hx hag hpx hqx
    rw [List.countP_cons, List.countP_cons]
    rcases List.mem_cons.1 hx with rfl | hm
    · have hxt : x ∉ t := (List.nodup_cons.1 hnd).1
      have ht : t.countP q = t.countP p :=
        countP_congr_list t q p (fun y hy => hag y (List.mem_cons_of_mem _ hy)
          (fun e => hxt (e ▸ hy)))
      rw [ht, hpx, hqx]
      simp
    · have hax : a ≠ x := fun e => absurd hm (e ▸ (List.nodup_cons.1 hnd).1)
      have ha : q a = p a := hag a (List.mem_cons_self _ _) hax
      have hih := ih (List.nodup_cons.1 hnd).2 hm
        (fun y hy hne => hag y (List.mem_cons_of_mem _ hy) hne) hpx hqx
      rw [ha, hih]
      by_cases hpa : p a = true
      · rw [if_pos hpa]
      · rw [if_neg hpa]

theorem sum_map_flip (l : List Nat) (x : Nat) (F G : Nat → Nat) :
    l.Nodup → x ∈ l → (∀ y ∈ l, y ≠ x → G y = F y) →
    (l.map G).sum + F x = (l.map F).sum + G x := by
  induction l with
  | nil => intro _ hx; simp at hx
  | cons a t ih =>
    intro hnd hx hag
    rw [List.map_cons, List.map_cons, List.sum_cons, List.sum_cons]
    rcases List.mem_cons.1 hx with rfl | hm
    · have hxt : x ∉ t := (List.nodup_cons.1 hnd).1
      have ht : t.map G = t.map F :=
        List.map_congr_left (fun y hy => hag y (List.mem_cons_of_mem _ hy)
          (fun e => hxt (e ▸ hy)))
      rw [ht]
      omega
    · have hax : a ≠ x := fun e => absurd hm (e ▸ (List.nodup_cons.1 hnd).1)
      have ha : G a = F a := hag a (List.mem_cons_self _ _) hax
      have hih := ih (List.nodup_cons.1 hnd).2 hm
        (fun y hy hne => hag y (List.mem_cons_of_mem _ hy) hne)
      rw [ha]
      omega

theorem writeBytes_slot_marker (pg : Page) (rs1 sl s : Nat) (bs : List Nat)
    (hrs : 0 < rs1) (hlen : bs.length ≤ rs1) (hne : s ≠ sl) :
    writeBytes pg (sl * rs1) bs (s * rs1) = pg (s * rs1) := by
  apply writeBytes_outside
  rcases Nat.lt_or_ge s sl with h | h
  · left
    have h1 : (s + 1) * rs1 ≤ sl * rs1 := Nat.mul_le_mul_right rs1 (by omega)
    rw [Nat.succ_mul] at h1
    omega
  · right
    have hsl : sl + 1 ≤ s := by omega
    have h1 : (sl + 1) * rs1 ≤ s * rs1 := Nat.mul_le_mul_right rs1 hsl
    rw [Nat.succ_mul] at h1
    omega

theorem livePage_zeroPage (rs1 ts : Nat) : livePage zeroPage rs1 ts = 0 := by
  unfold livePage
  rw [List.countP_eq_zero]
  intro s _
  simp [zeroPage]

theorem livePage_insert (pg : Page) (rs1 ts sl : Nat) (bs : List Nat)
    (hts : sl < ts) (hrs : 0 < rs1) (hlen : (35 :: bs).length ≤ rs1)
    (hmark : (pg (sl * rs1) == 35) = false) :
    livePage (writeBytes pg (sl * rs1) (35 :: bs)) rs1 ts = livePage pg rs1 ts + 1 := by
  unfold livePage
  apply countP_flip (List.range ts) sl _ _ (List.nodup_range ts) (List.mem_range.2 hts)
  · intro s _ hne
    rw [writeBytes_slot_marker pg rs1 sl s (35 :: bs) hrs hlen hne]
  · exact hmark
  · rw [writeBytes_inside pg (sl * rs1) (35 :: bs) (sl * rs1) (Nat.le_refl _) (by simp)]
    simp

theorem livePage_delete (pg : Page) (rs1 ts sl : Nat)
    (hts : sl < ts) (hrs : 0 < rs1)
    (hmark : (pg (sl * rs1) == 35) = true) :
    livePage pg rs1 ts = livePage (writeBytes pg (sl * rs1) [36]) rs1 ts + 1 := by
  unfold livePage
  apply countP_flip (List.range ts) sl _ _ (List.nodup_range ts) (List.mem_range.2 hts)
  · intro s _ hne
    rw [writeBytes_slot_marker pg rs1 sl s [36] hrs (by simp; omega) hne]
  · rw [writeBytes_inside pg (sl * rs1) [36] (sl * rs1) (Nat.le_refl _) (by simp)]
    simp
  · exact hmark

theorem liveIn_snoc_zero (g : List Page) (rs1 ts : Nat) :
    liveIn (g ++ [zeroPage]) rs1 ts = liveIn g rs1 ts := by
  unfold liveIn
  rw [List.length_append]
  simp only [List.length_singleton]
  rw [List.range_succ, List.map_append, List.sum_append]
  have h2 : ∀ p ∈ List.range g.length,
      (if 2 ≤ p then livePage (readPage (g ++ [zeroPage]) p) rs1 ts else 0)
        = (if 2 ≤ p then livePage (readPage g p) rs1 ts else 0) := by
    intro p hp
    rw [List.mem_range] at hp
    rw [show readPage (g ++ [zeroPage]) p = readPage g p from
      getD_append_left _ _ _ _ hp]
  rw [List.map_congr_left h2]
  have h1 : readPage (g ++ [zeroPage]) g.length = zeroPage := by
    unfold readPage
    rw [getD_append_right _ _ _ _ (Nat.le_refl _)]
    simp
  simp [h1, livePage_zeroPage]

theorem liveIn_append_zeros (g : List Page) (k rs1 ts : Nat) :
    liveIn (g ++ List.replicate k zeroPage) rs1 ts = liveIn g rs1 ts := by
  induction k generalizing g with
  | zero => simp
  | succ m ihm =>
    rw [List.replicate_succ]
    rw [show g ++ (zeroPage :: List.replicate m zeroPage)
        = (g ++ [zeroPage]) ++ List.replicate m zeroPage from by simp]
    rw [ihm (g ++ [zeroPage]), liveIn_snoc_zero]

theorem liveIn_extendTo (f : List Page) (n rs1 ts : Nat) :
    liveIn (extendTo f n) rs1 ts = liveIn f rs1 ts := by
  unfold extendTo
  exact liveIn_append_zeros f _ rs1 ts

theorem liveIn_set_raw (f : List Page) (pg : Nat) (q : Page) (rs1 ts : Nat)
    (hlt : pg < f.length) :
    liveIn (f.set pg q) rs1 ts + (if 2 ≤ pg then livePage (readPage f pg) rs1 ts else 0)
      = liveIn f rs1 ts + (if 2 ≤ pg then livePage q rs1 ts else 0) := by
  unfold liveIn
  rw [List.length_set]
  have h := sum_map_flip (List.range f.length) pg
    (fun p => if 2 ≤ p then livePage (readPage f p) rs1 ts else 0)
    (fun p => if 2 ≤ p then livePage (readPage (f.set pg q) p) rs1 ts else 0)
    (List.nodup_range f.length) (List.mem_range.2 hlt)
    (fun y _ hne => by
      show (if 2 ≤ y then livePage (readPage (f.set pg q) y) rs1 ts else 0)
          = (if 2 ≤ y then livePage (readPage f y) rs1 ts else 0)
      rw [readPage_set_ne f pg y q (fun e => hne e.symm)])
  have h2 : (List.map (fun p => if 2 ≤ p then livePage (readPage (f.set pg q) p) rs1 ts else 0)
        (List.range f.length)).sum
        + (if 2 ≤ pg then livePage (readPage f pg) rs1 ts else 0)
      = (List.map (fun p => if 2 ≤ p then livePage (readPage f p) rs1 ts else 0)
          (List.range f.length)).sum
        + (if 2 ≤ pg then livePage (readPage (f.set pg q) pg) rs1 ts else 0) := h
  rw [readPage_set_self f pg q hlt] at h2
  exact h2

/- ============== findFreeSlotFrom / heap-op effect lemmas ============== -/

theorem firstFreeSlotGo_spec (pg : Page) (rs1 : Nat) : ∀ (n i s : Nat),
    firstFreeSlotGo pg rs1 n i = some s →
    i ≤ s ∧ s < i + n ∧ (pg (s * rs1) == 35) = false := by
  intro n
  induction n with
  | zero => intro i s h; cases h
  | succ m ih =>
    intro i s h
    simp only [firstFreeSlotGo] at h
    by_cases hb : (pg (i * rs1) != 35) = true
    · rw [if_pos hb] at h
      cases h
      refine ⟨Nat.le_refl _, by omega, ?_⟩
      simpa [bne] using hb
    · rw [if_neg hb] at h
      obtain ⟨h1, h2, h3⟩ := ih (i + 1) s h
      exact ⟨by omega, by omega, h3⟩

theorem zeroPage_first_slot_free (rs1 ts : Nat) (hts : 0 < ts) :
    firstFreeSlotInPage zeroPage rs1 ts = some 0 := by
  unfold firstFreeSlotInPage
  cases ts with
  | zero => omega
  | succ u =>
    simp only [firstFreeSlotGo]
    rw [if_pos (by simp [zeroPage])]

theorem findFreeSlotFrom_spec (file : List Page) (rs1 ts : Nat) (hts : 0 < ts) :
    ∀ (fuel page : Nat), file.length < fuel + page →
    page ≤ (findFreeSlotFrom file rs1 ts fuel page).1
    ∧ (findFreeSlotFrom file rs1 ts fuel page).2 < ts
    ∧ (readPage file (findFreeSlotFrom file rs1 ts fuel page).1
        ((findFreeSlotFrom file rs1 ts fuel page).2 * rs1) == 35) = false := by
  intro fuel
  induction fuel with
  | zero =>
    intro page hlen
    refine ⟨Nat.le_refl _, hts, ?_⟩
    show (readPage file page (0 * rs1) == 35) = false
    rw [readPage_out file page (by omega)]
    simp [zeroPage]
  | succ m ih =>
    intro page hlen
    cases hf : firstFreeSlotInPage (readPage file page) rs1 ts with
    | some s =>
      have hres : findFreeSlotFrom file rs1 ts (m + 1) page = (page, s) := by
        simp only [findFreeSlotFrom, hf]
      rw [hres]
      obtain ⟨_, h2, h3⟩ := firstFreeSlotGo_spec (readPage file page) rs1 ts 0 s hf
      exact ⟨Nat.le_refl _, by omega, h3⟩
    | none =>
      have hres : findFreeSlotFrom file rs1 ts (m + 1) page
          = findFreeSlotFrom file rs1 ts m (page + 1) := by
        simp only [findFreeSlotFrom, hf]
      rw [hres]
      have hp : page < file.length := by
        by_contra hge
        have hz : firstFreeSlotInPage (readPage file page) rs1 ts = some 0 := by
          rw [readPage_out file page (by omega)]
          exact zeroPage_first_slot_free rs1 ts hts
        rw [hf] at hz
        cases hz
      obtain ⟨h1, h2, h3⟩ := ih (page + 1) (by omega)
      exact ⟨by omega, h2, h3⟩

theorem insertRecord_effect (st : RMTable) (r : List Nat)
    (h2 : 2 ≤ st.firstFreePageNumber) (hts : 0 < totalSlotsOf st.recordSize) :
    (insertRecord st r).1.numTuples = st.numTuples + 1
    ∧ 2 ≤ (insertRecord st r).1.firstFreePageNumber
    ∧ (insertRecord st r).1.recordSize = st.recordSize
    ∧ liveCount (insertRecord st r).1 = liveCount st + 1 := by
  have hspec := findFreeSlotFrom_spec st.file (st.recordSize + 1) (totalSlotsOf st.recordSize)
    hts (st.file.length + 1) st.firstFreePageNumber (by omega)
  rcases hps : findFreeSlotFrom st.file (st.recordSize + 1) (totalSlotsOf st.recordSize)
      (st.file.length + 1) st.firstFreePageNumber with ⟨pg, sl⟩
  rw [hps] at hspec
  have hpg : st.firstFreePageNumber ≤ pg := hspec.1
  have hsl : sl < totalSlotsOf st.recordSize := hspec.2.1
  have hmark : (readPage st.file pg (sl * (st.recordSize + 1)) == 35) = false := hspec.2.2
  have hpg1 : pg < (extendTo st.file (pg + 1)).length := by
    rw [length_extendTo]
    omega
  refine ⟨by simp [insertRecord, hps], ?_, by simp [insertRecord, hps], ?_⟩
  · simp only [insertRecord, hps]
    show 2 ≤ (if pg = st.firstFreePageNumber then st.firstFreePageNumber else pg)
    by_cases he : pg = st.firstFreePageNumber
    · rw [if_pos he]
      exact h2
    · rw [if_neg he]
      omega
  · simp only [insertRecord, hps, liveCount]
    show liveIn ((extendTo st.file (pg + 1)).set pg
        (writeBytes (readPage (extendTo st.file (pg + 1)) pg) (sl * (st.recordSize + 1))
          (35 :: r.take st.recordSize))) (st.recordSize + 1) (totalSlotsOf st.recordSize)
      = liveIn st.file (st.recordSize + 1) (totalSlotsOf st.recordSize) + 1
    have hrd : readPage (extendTo st.file (pg + 1)) pg = readPage st.file pg :=
      readPage_extendTo st.file (pg + 1) pg
    have hlive : livePage (writeBytes (readPage (extendTo st.file (pg + 1)) pg)
        (sl * (st.recordSize + 1)) (35 :: r.take st.recordSize))
          (st.recordSize + 1) (totalSlotsOf st.recordSize)
        = livePage (readPage (extendTo st.file (pg + 1)) pg)
            (st.recordSize + 1) (totalSlotsOf st.recordSize) + 1 := by
      apply livePage_insert _ _ _ _ _ hsl (by omega)
      · simp only [List.length_cons, List.length_take]
        omega
      · rw [hrd]
        exact hmark
    have hset := liveIn_set_raw (extendTo st.file (pg + 1)) pg
      (writeBytes (readPage (extendTo st.file (pg + 1)) pg) (sl * (st.recordSize + 1))
        (35 :: r.take st.recordSize)) (st.recordSize + 1) (totalSlotsOf st.recordSize) hpg1
    have hp2if : 2 ≤ pg := by omega
    rw [if_pos hp2if, if_pos hp2if, hlive] at hset
    have hext := liveIn_extendTo st.file (pg + 1) (st.recordSize + 1)
      (totalSlotsOf st.recordSize)
    rw [hext] at hset
    omega

theorem deleteRecord_effect (st : RMTable) (p s : Nat)
    (hp2 : 2 ≤ p) (hs : s < totalSlotsOf st.recordSize)
    (hm : readPage st.file p (s * (st.recordSize + 1)) = 35) :
    (deleteRecord st (p, s)).1.numTuples = st.numTuples - 1
    ∧ (deleteRecord st (p, s)).1.firstFreePageNumber = st.firstFreePageNumber
    ∧ (deleteRecord st (p, s)).1.recordSize = st.recordSize
    ∧ liveCount st = liveCount (deleteRecord st (p, s)).1 + 1 := by
  have hp1 : p < (extendTo st.file (p + 1)).length := by
    rw [length_extendTo]
    omega
  refine ⟨rfl, rfl, rfl, ?_⟩
  simp only [deleteRecord, liveCount]
  show liveIn st.file (st.recordSize + 1) (totalSlotsOf st.recordSize)
    = liveIn ((extendTo st.file (p + 1)).set p
        (writeBytes (readPage (extendTo st.file (p + 1)) p) (s * (st.recordSize + 1)) [36]))
        (st.recordSize + 1) (totalSlotsOf st.recordSize) + 1
  have hrd : readPage (extendTo st.file (p + 1)) p = readPage st.file p :=
    readPage_extendTo st.file (p + 1) p
  have hlive : livePage (readPage (extendTo st.file (p + 1)) p)
      (st.recordSize + 1) (totalSlotsOf st.recordSize)
      = livePage (writeBytes (readPage (extendTo st.file (p + 1)) p)
          (s * (st.recordSize + 1)) [36]) (st.recordSize + 1) (totalSlotsOf st.recordSize) + 1 := by
    apply livePage_delete _ _ _ _ hs (by omega)
    rw [hrd, hm]
    rfl
  have hset := liveIn_set_raw (extendTo st.file (p + 1)) p
    (writeBytes (readPage (extendTo st.file (p + 1)) p) (s * (st.recordSize + 1)) [36])
    (st.recordSize + 1) (totalSlotsOf st.recordSize) hp1
  have hp2if : 2 ≤ p := hp2
  rw [if_pos hp2if, if_pos hp2if, hlive] at hset
  have hext := liveIn_extendTo st.file (p + 1) (st.recordSize + 1) (totalSlotsOf st.recordSize)
  rw [hext] at hset
  omega

/- ===================== claim C5 ===================== -/

/-- C5, amended: after any sequence of insertRecord and deleteRecord
operations in which every deleteRecord targets a data-page slot (page ≥ 2,
slot < slotsPerPage) whose marker byte is '#' at the time of deletion,
numTuples equals the number of data-page slots whose marker byte is '#'.
(As stated, without the restriction on deletes, the claim fails:
deleteRecord decrements numTuples for non-live slots too — see the
counterexample theorem.) -/
theorem c5_numTuples_live_slots : ∀ (ops : List HeapOp) (st : RMTable),
    2 ≤ st.firstFreePageNumber → 0 < totalSlotsOf st.recordSize →
    st.numTuples = (liveCount st : Int) → validOps st ops = true →
    (applyOps st ops).numTuples = (liveCount (applyOps st ops) : Int) := by
  intro ops
  induction ops with
  | nil => intro st _ _ h _; exact h
  | cons op rest ih =>
    intro st h2 hts hinv hv
    rw [validOps, Bool.and_eq_true] at hv
    show (applyOps (applyOp st op) rest).numTuples = (liveCount (applyOps (applyOp st op) rest) : Int)
    cases op with
    | ins r =>
      obtain ⟨e1, e2, e3, e4⟩ := insertRecord_effect st r h2 hts
      refine ih (applyOp st (.ins r)) e2 ?_ ?_ hv.2
      · rw [show (applyOp st (HeapOp.ins r)).recordSize = st.recordSize from e3]
        exact hts
      · show (insertRecord st r).1.numTuples = (liveCount (insertRecord st r).1 : Int)
        rw [e1, e4, hinv]
        push_cast
        ring
    | del rid =>
      obtain ⟨p, s⟩ := rid
      have hval := hv.1
      simp only [validOp, Bool.and_eq_true, decide_eq_true_eq, beq_iff_eq] at hval
      obtain ⟨⟨hp2, hslt⟩, hm⟩ := hval
      obtain ⟨e1, e2, e3, e4⟩ := deleteRecord_effect st p s hp2 hslt hm
      refine ih (applyOp st (.del (p, s))) ?_ ?_ ?_ hv.2
      · rw [show (applyOp st (HeapOp.del (p, s))).firstFreePageNumber
            = st.firstFreePageNumber from e2]
        exact h2
      · rw [show (applyOp st (HeapOp.del (p, s))).recordSize = st.recordSize from e3]
        exact hts
      · show (deleteRecord st (p, s)).1.numTuples = (liveCount (deleteRecord st (p, s)).1 : Int)
        rw [e1, hinv, e4]
        push_cast
        ring

/-- Concrete run of the amended C5 theorem: insert one record into a fresh
table, then delete it at its RID (2,0); the invariant holds throughout. -/
theorem c5_numTuples_live_slots_witness :
    validOps freshTable [HeapOp.ins rec1Data, HeapOp.del (2, 0)] = true
    ∧ (applyOps freshTable [HeapOp.ins rec1Data, HeapOp.del (2, 0)]).numTuples
        = (liveCount (applyOps freshTable [HeapOp.ins rec1Data, HeapOp.del (2, 0)]) : Int) := by
  refine ⟨by decide, ?_⟩
  exact c5_numTuples_live_slots [HeapOp.ins rec1Data, HeapOp.del (2, 0)] freshTable
    (by decide) (by decide) (by decide) (by decide)

/-- C5 as stated is false on the code: deleting the never-written slot
(2,0) of a fresh table is a successful deleteRecord (RC_OK), after which
numTuples is -1 while no data-page slot carries the '#' marker. -/
theorem c5_counterexample_delete_nonlive :
    (deleteRecord freshTable (2, 0)).2 = RC.ok
    ∧ ¬ ((deleteRecord freshTable (2, 0)).1.numTuples
          = (liveCount (deleteRecord freshTable (2, 0)).1 : Int)) := by
  decide

end DB
